import Mathlib

/-!
Verification of the pishow media catalog and per-device playback scheduler.

Shallow embedding of `src/media.py` (`MediaDict.sync_files`, `__getitem__`,
`get_keys_for_collections`), `src/queue.py` (`DeviceQueue`) and
`src/device_manager.py` (`DeviceQueueManager.get_next`).

Modelling conventions:
* Python `dict` objects (insertion ordered) are association lists
  `List (String × α)`; `d[k] = v` updates in place or appends.
* `random.shuffle` is an oracle `shuf : List String → List String`; theorems
  that depend on it assume `∀ l, (shuf l).Perm l`.
* Persistence (`pickle` files) is an `Option (List String)` field.
* The filesystem is a list of `FsFile` values describing each regular file
  the scan would visit, in scan (sorted) order.
* The background prefetch thread (`DeviceQueue._prefetch_next`) is a detached
  daemon; it is not part of the sequential semantics modelled here.
-/

namespace Pishow

/-- Lookup in an insertion-ordered association list (Python `dict.get`). -/
def alookup {α : Type} : List (String × α) → String → Option α
  | [], _ => none
  | p :: rest, s => if p.1 = s then some p.2 else alookup rest s

/-- `d[s] = v` on a Python dict: update the existing binding in place,
otherwise append a fresh binding. -/
def aset {α : Type} : List (String × α) → String → α → List (String × α)
  | [], s, v => [(s, v)]
  | p :: rest, s, v => if p.1 = s then (s, v) :: rest else p :: aset rest s v

/-- `d.pop(s, None)` on a Python dict: drop the binding for `s` if present. -/
def aremove {α : Type} : List (String × α) → String → List (String × α)
  | [], _ => []
  | p :: rest, s => if p.1 = s then rest else p :: aremove rest s

/-- The key list of an association list. -/
def akeys {α : Type} (l : List (String × α)) : List String :=
  l.map Prod.fst

theorem alookup_mem {α : Type} {l : List (String × α)} {s : String} {v : α}
    (h : alookup l s = some v) : (s, v) ∈ l := by
  induction l with
  | nil => simp [alookup] at h
  | cons p rest ih =>
    obtain ⟨a, b⟩ := p
    by_cases hp : a = s
    · subst hp
      simp [alookup] at h
      subst h
      exact List.mem_cons_self _ _
    · simp [alookup, hp] at h
      exact List.mem_cons_of_mem _ (ih h)

theorem mem_aset {α : Type} {l : List (String × α)} {s : String} {v : α}
    {p : String × α} (h : p ∈ aset l s v) : p ∈ l ∨ p = (s, v) := by
  induction l with
  | nil => simp [aset] at h; simp [h]
  | cons q rest ih =>
    obtain ⟨a, b⟩ := q
    by_cases hq : a = s
    · subst hq
      simp [aset] at h
      rcases h with h | h
      · right; simp [h]
      · left; exact List.mem_cons_of_mem _ h
    · simp [aset, hq] at h
      rcases h with h | h
      · left; simp [h]
      · rcases ih h with h' | h'
        · left; exact List.mem_cons_of_mem _ h'
        · right; exact h'

theorem alookup_aset_self {α : Type} (l : List (String × α)) (s : String) (v : α) :
    alookup (aset l s v) s = some v := by
  induction l with
  | nil => simp [aset, alookup]
  | cons p rest ih =>
    obtain ⟨a, b⟩ := p
    by_cases hp : a = s
    · subst hp
      simp [aset, alookup]
    · simp [aset, hp, alookup, ih]

theorem alookup_aset_ne {α : Type} (l : List (String × α)) (s t : String) (v : α)
    (h : t ≠ s) : alookup (aset l s v) t = alookup l t := by
  induction l with
  | nil => simp [aset, alookup, Ne.symm h]
  | cons p rest ih =>
    obtain ⟨a, b⟩ := p
    by_cases hp : a = s
    · subst hp
      simp [aset, alookup, Ne.symm h]
    · by_cases hpt : a = t
      · subst hpt
        simp [aset, alookup, hp]
      · simp [aset, alookup, hp, hpt, ih]

theorem alookup_aremove_ne {α : Type} (l : List (String × α)) (s t : String)
    (h : t ≠ s) : alookup (aremove l s) t = alookup l t := by
  induction l with
  | nil => simp [aremove]
  | cons p rest ih =>
    obtain ⟨a, b⟩ := p
    by_cases hp : a = s
    · subst hp
      simp [aremove, alookup, Ne.symm h]
    · by_cases hpt : a = t
      · subst hpt
        simp [aremove, alookup, hp]
      · simp [aremove, alookup, hp, hpt, ih]

theorem akeys_aset_of_mem {α : Type} {l : List (String × α)} {s : String} (v : α) :
    s ∈ akeys l → akeys (aset l s v) = akeys l := by
  induction l with
  | nil => intro h; simp [akeys] at h
  | cons p rest ih =>
    intro h
    obtain ⟨a, b⟩ := p
    by_cases hp : a = s
    · subst hp
      simp [aset, akeys]
    · have h' : s ∈ akeys rest := by
        simp only [akeys, List.map_cons, List.mem_cons] at h
        rcases h with h | h
        · exact absurd h.symm hp
        · exact h
      simp only [aset, if_neg hp, akeys, List.map_cons]
      rw [show List.map Prod.fst (aset rest s v) = akeys (aset rest s v) from rfl,
        ih h']
      rfl

theorem akeys_aset_of_not_mem {α : Type} {l : List (String × α)} {s : String} (v : α) :
    s ∉ akeys l → akeys (aset l s v) = akeys l ++ [s] := by
  induction l with
  | nil => intro _; simp [aset, akeys]
  | cons p rest ih =>
    intro h
    obtain ⟨a, b⟩ := p
    simp only [akeys, List.map_cons, List.mem_cons] at h
    push_neg at h
    have hp : a ≠ s := fun hh => h.1 hh.symm
    simp only [aset, if_neg hp, akeys, List.map_cons]
    rw [show List.map Prod.fst (aset rest s v) = akeys (aset rest s v) from rfl,
      ih h.2]
    rfl

theorem akeys_aset_nodup {α : Type} {l : List (String × α)} {s : String} (v : α)
    (h : (akeys l).Nodup) : (akeys (aset l s v)).Nodup := by
  by_cases hs : s ∈ akeys l
  · rw [akeys_aset_of_mem v hs]; exact h
  · rw [akeys_aset_of_not_mem v hs]
    simpa [List.nodup_append] using ⟨h, hs⟩

theorem alookup_eq_of_mem_nodup {α : Type} {l : List (String × α)} {s : String}
    {v : α} (hnd : (akeys l).Nodup) : (s, v) ∈ l → alookup l s = some v := by
  induction l with
  | nil => intro h; simp at h
  | cons p rest ih =>
    intro h
    obtain ⟨a, b⟩ := p
    simp only [akeys, List.map_cons, List.nodup_cons] at hnd
    rcases List.mem_cons.mp h with h | h
    · injection h with h1 h2
      subst h1
      subst h2
      simp [alookup]
    · have hp : a ≠ s := by
        intro hh
        exact hnd.1 (hh ▸ (List.mem_map.mpr ⟨(s, v), h, rfl⟩))
      simp [alookup, hp, ih hnd.2 h]

/-- `list(dict.fromkeys(keys))`: de-duplicate keeping the first occurrence. -/
def dedupAux : List String → List String → List String
  | _, [] => []
  | seen, x :: xs =>
    if x ∈ seen then dedupAux seen xs else x :: dedupAux (x :: seen) xs

/-- `list(dict.fromkeys(keys))` as used throughout `DeviceQueue`. -/
def dedupF (l : List String) : List String :=
  dedupAux [] l

theorem mem_dedupAux {seen l : List String} {a : String} :
    a ∈ dedupAux seen l ↔ a ∈ l ∧ a ∉ seen := by
  induction l generalizing seen with
  | nil => simp [dedupAux]
  | cons x xs ih =>
    by_cases hx : x ∈ seen
    · simp only [dedupAux, if_pos hx, ih, List.mem_cons]
      constructor
      · rintro ⟨h1, h2⟩; exact ⟨Or.inr h1, h2⟩
      · rintro ⟨h1 | h1, h2⟩
        · exact absurd (h1 ▸ hx) h2
        · exact ⟨h1, h2⟩
    · simp only [dedupAux, if_neg hx, List.mem_cons, ih]
      constructor
      · rintro (h | ⟨h1, h2⟩)
        · exact ⟨Or.inl h, h ▸ hx⟩
        · exact ⟨Or.inr h1, fun hs => h2 (Or.inr hs)⟩
      · rintro ⟨h1 | h1, h2⟩
        · exact Or.inl h1
        · by_cases hax : a = x
          · exact Or.inl hax
          · exact Or.inr ⟨h1, by simp [List.mem_cons, hax, h2]⟩

theorem dedupAux_nodup (seen l : List String) : (dedupAux seen l).Nodup := by
  induction l generalizing seen with
  | nil => simp [dedupAux]
  | cons x xs ih =>
    by_cases hx : x ∈ seen
    · simp only [dedupAux, if_pos hx]; exact ih seen
    · simp only [dedupAux, if_neg hx, List.nodup_cons]
      refine ⟨fun hmem => ?_, ih (x :: seen)⟩
      exact (mem_dedupAux.mp hmem).2 (List.mem_cons_self _ _)

theorem mem_dedupF {l : List String} {a : String} : a ∈ dedupF l ↔ a ∈ l := by
  simp [dedupF, mem_dedupAux]

theorem dedupF_nodup (l : List String) : (dedupF l).Nodup :=
  dedupAux_nodup [] l

theorem dedupAux_of_nodup {seen l : List String}
    (hd : ∀ a ∈ l, a ∉ seen) (hnd : l.Nodup) : dedupAux seen l = l := by
  induction l generalizing seen with
  | nil => simp [dedupAux]
  | cons x xs ih =>
    simp only [List.nodup_cons] at hnd
    have hx : x ∉ seen := hd x (List.mem_cons_self _ _)
    simp only [dedupAux, if_neg hx]
    congr 1
    refine ih (fun a ha => ?_) hnd.2
    simp only [List.mem_cons]
    push_neg
    exact ⟨fun hax => hnd.1 (hax ▸ ha), hd a (List.mem_cons_of_mem _ ha)⟩

theorem dedupF_of_nodup {l : List String} (hnd : l.Nodup) : dedupF l = l :=
  dedupAux_of_nodup (by simp) hnd

theorem dedupF_idem (l : List String) : dedupF (dedupF l) = dedupF l :=
  dedupF_of_nodup (dedupF_nodup l)

theorem dedupF_ne_nil {l : List String} (h : l ≠ []) : dedupF l ≠ [] := by
  intro hc
  rcases List.exists_mem_of_ne_nil l h with ⟨a, ha⟩
  have : a ∈ dedupF l := mem_dedupF.mpr ha
  simp [hc] at this

/-! ## Media catalog (`src/media.py`) -/

/-- Result of the MIME sniff (`mimetypes.guess_type`) for a file:
`image/*`, `video/*`, or anything else. -/
inductive MediaKind where
  | photo : MediaKind
  | video : MediaKind
  | other : MediaKind
deriving DecidableEq, Repr

/-- `MediaFile` dataclass of `src/media.py`. -/
structure MediaFile where
  file : String
  relative_path : String
  is_video : Bool
  duration : Option Nat
deriving DecidableEq, Repr

/-- One regular file visited by `sync_files`'s sorted `rglob` walk.
`path` is the path relative to the media root (the scan only ever stores
relative paths), `canonical` the canonical resolved absolute path,
`dev`/`ino` the stat identity (`ino = 0` when the inode is unavailable),
`coll` the collection id of the immediate parent folder, `ignored` whether
`_is_ignored` holds (background suffix / uploads staging subtree), and
`probed` the value the duration probe would return for it
(`get_video_duration`; probe failure is already folded in as `0`).
Windows `.lnk` shortcut resolution is a no-op on POSIX and is not
modelled. -/
structure FsFile where
  path : String
  canonical : String
  dev : Nat
  ino : Nat
  coll : String
  kind : MediaKind
  ignored : Bool
  probed : Nat
deriving DecidableEq, Repr

/-- `MediaDict._file_identity`: prefer `inode:{dev}:{ino}`, fall back to
the canonical resolved path. -/
def fileIdentity (f : FsFile) : String :=
  if f.ino ≠ 0 then "inode:" ++ toString f.dev ++ ":" ++ toString f.ino
  else "path:" ++ f.canonical

/-- Key minting: `hashlib.md5(canonical_path).hexdigest()`.  The md5 hex
digest is modelled as an injective tagging of the canonical path. -/
def mintKey (f : FsFile) : String :=
  "md5:" ++ f.canonical

/-- Uppercase hexadecimal digit, as `urllib.parse.quote` emits: `0`-`9`
for values below ten, `A`-`F` above. -/
def hexDigit (n : Nat) : Char :=
  Char.ofNat (if n < 10 then 48 + n else 55 + n)

/-- UTF-8 byte sequence of a Unicode code point. -/
def utf8Bytes (n : Nat) : List Nat :=
  if n < 0x80 then [n]
  else if n < 0x800 then [0xC0 + n / 64, 0x80 + n % 64]
  else if n < 0x10000 then
    [0xE0 + n / 4096, 0x80 + (n / 64) % 64, 0x80 + n % 64]
  else
    [0xF0 + n / 262144, 0x80 + (n / 4096) % 64, 0x80 + (n / 64) % 64,
      0x80 + n % 64]

/-- The characters `urllib.parse.quote` never encodes: ASCII
alphanumerics, `_`, `.`, `-`, `~`, plus the default `safe='/'`. -/
def isSafeChar (c : Char) : Bool :=
  c.isAlphanum || c = '_' || c = '.' || c = '-' || c = '~' || c = '/'

/-- Quote one character: safe characters pass through, every other
character has its UTF-8 bytes percent-encoded in uppercase hex. -/
def quoteChar (c : Char) : List Char :=
  if isSafeChar c then [c]
  else (utf8Bytes c.toNat).flatMap
    (fun b => ['%', hexDigit (b / 16), hexDigit (b % 16)])

/-- `urllib.parse.quote(rel_path)` with the default `safe='/'`: the
display URL stored in `MediaFile.relative_path`.  Note `__getitem__`
checks on-disk existence of `media_dir / relative_path` — the quoted
form — not of the raw `file` path. -/
def urlQuote (s : String) : String := ⟨s.data.flatMap quoteChar⟩

/-- `(media_dir / p).exists()`: the relative path `p` names a file that is
currently on disk. -/
def pathExists (fs : List FsFile) (p : String) : Bool :=
  fs.any (fun f => decide (f.path = p))

/-- The mutable state of a `MediaDict` instance: the inherited `dict`
contents (`entries`), the identity maps, the per-collection key index and
the photo/video key partition.  `media_dir`, `background_suffix` and
`uploaded_media_raw` are absorbed into `FsFile.path` (relative paths) and
`FsFile.ignored`; the `collections : dict[str, CollectionInfo]` metadata
is display-only and not the subject of any claim. -/
structure MediaDict where
  entries : List (String × MediaFile)
  file_id_to_key : List (String × String)
  key_to_file_id : List (String × String)
  collection_keys : List (String × List String)
  photo_keys : List String
  video_keys : List String
deriving DecidableEq, Repr

/-- Accumulator for the per-file loop of `sync_files`. -/
structure SyncAcc where
  entries : List (String × MediaFile)
  file_id_to_key : List (String × String)
  key_to_file_id : List (String × String)
  collection_keys : List (String × List String)
  new_keys : List String
  found_keys : List String
deriving DecidableEq, Repr

/-- First in-place update statement of `sync_files` for a re-observed
identity: refresh `is_video` when the sniffed kind changed. -/
def updateMedia1 (m : MediaFile) (isVid : Bool) : MediaFile × Bool :=
  if m.is_video ≠ isVid then ({ m with is_video := isVid }, true)
  else (m, false)

/-- Second statement: refresh the stored path and display URL when either
changed. -/
def updateMedia2 (r : MediaFile × Bool) (rel url : String) :
    MediaFile × Bool :=
  if r.1.file ≠ rel ∨ r.1.relative_path ≠ url then
    ({ r.1 with file := rel, relative_path := url }, true)
  else r

/-- Third statement: re-probe the duration when the record is (now) a
video whose duration is unset or whose record was updated. -/
def updateMedia3 (r : MediaFile × Bool) (probed : Nat) : MediaFile × Bool :=
  if r.1.is_video = true ∧ (r.1.duration = none ∨ r.2 = true) then
    ({ r.1 with duration := some probed }, true)
  else r

/-- The in-place record update of `sync_files` for a re-observed identity:
the three update statements in source order.  Returns the record together
with the `updated` flag. -/
def updateMedia (m : MediaFile) (isVid : Bool) (rel url : String)
    (probed : Nat) : MediaFile × Bool :=
  updateMedia3 (updateMedia2 (updateMedia1 m isVid) rel url) probed

/-- `found_keys.add(key)` together with the
`collection_keys.setdefault(cid, []); append if missing` bookkeeping. -/
def addFound (acc : SyncAcc) (key cid : String) : SyncAcc :=
  let found := if key ∈ acc.found_keys then acc.found_keys
    else acc.found_keys ++ [key]
  let ck := (alookup acc.collection_keys cid).getD []
  let ck := if key ∈ ck then ck else ck ++ [key]
  { acc with found_keys := found,
             collection_keys := aset acc.collection_keys cid ck }

/-- One iteration of the file loop of `MediaDict.sync_files`. -/
def syncFile (acc : SyncAcc) (f : FsFile) : SyncAcc :=
  if f.ignored = true then acc
  else if f.kind = MediaKind.other then acc
  else
    let rel := f.path
    let url := urlQuote rel
    let fid := fileIdentity f
    let isVid := decide (f.kind = MediaKind.video)
    match alookup acc.file_id_to_key fid with
    | some key =>
      let acc1 :=
        match alookup acc.entries key with
        | some m =>
          let mu := updateMedia m isVid rel url f.probed
          if mu.2 = true then { acc with entries := aset acc.entries key mu.1 }
          else acc
        | none => acc
      addFound acc1 key f.coll
    | none =>
      let key := mintKey f
      let dur := if isVid = true then some f.probed else none
      let m : MediaFile :=
        { file := rel, relative_path := url, is_video := isVid, duration := dur }
      let acc1 := { acc with
        entries := aset acc.entries key m,
        file_id_to_key := aset acc.file_id_to_key fid key,
        key_to_file_id := aset acc.key_to_file_id key fid,
        new_keys := acc.new_keys ++ [key] }
      addFound acc1 key f.coll

/-- The pruning pass at the end of `sync_files`: for every previously
known key that was not re-observed, pop its `key_to_file_id` binding and,
when that yields a truthy file id, the corresponding `file_id_to_key`
binding.  The state is `(key_to_file_id, file_id_to_key)`. -/
def pruneMaps (st : List (String × String) × List (String × String))
    (key : String) : List (String × String) × List (String × String) :=
  let fid := alookup st.1 key
  let k2f := aremove st.1 key
  let f2k := match fid with
    | some s => if s = "" then st.2 else aremove st.2 s
    | none => st.2
  (k2f, f2k)

/-- `MediaDict.sync_files`.  `folders` lists the collection ids registered
for the media root and every non-ignored folder (in walk order); `fs`
lists every regular file the sorted walk visits.  Returns the new state
together with the `new_keys` result. -/
def sync_files (d : MediaDict) (folders : List String) (fs : List FsFile) :
    MediaDict × List String :=
  let ck0 := folders.foldl
    (fun m c => match alookup m c with
      | some _ => m
      | none => m ++ [(c, [])]) []
  let acc0 : SyncAcc :=
    { entries := d.entries, file_id_to_key := d.file_id_to_key,
      key_to_file_id := d.key_to_file_id, collection_keys := ck0,
      new_keys := [], found_keys := [] }
  let acc := fs.foldl syncFile acc0
  let prunedKeys := (akeys acc.entries).filter
    (fun kk => decide (kk ∉ acc.found_keys))
  let maps := prunedKeys.foldl pruneMaps (acc.key_to_file_id, acc.file_id_to_key)
  let entries := acc.entries.filter (fun kv => decide (kv.1 ∈ acc.found_keys))
  let photo := (entries.filter (fun kv => !kv.2.is_video)).map Prod.fst
  let video := (entries.filter (fun kv => kv.2.is_video)).map Prod.fst
  ({ entries := entries, file_id_to_key := maps.2, key_to_file_id := maps.1,
     collection_keys := acc.collection_keys, photo_keys := photo,
     video_keys := video }, acc.new_keys)

/-- `MediaDict.__getitem__`.  `Except.error ()` is the `KeyError` a plain
`dict` lookup raises for an unknown key; every other outcome is a
well-defined value.  A known key whose file is gone triggers a resync and
yields `none`. -/
def getitem (d : MediaDict) (folders : List String) (fs : List FsFile)
    (key : String) : Except Unit (Option MediaFile) × MediaDict :=
  match alookup d.entries key with
  | none => (Except.error (), d)
  | some item =>
    if item.relative_path = "" then (Except.ok none, d)
    else if pathExists fs item.relative_path = true then
      (Except.ok (some item), d)
    else (Except.ok none, (sync_files d folders fs).1)

/-- `MediaDict.get_keys_for_collections`: de-duplicated (by file identity)
union of the keys registered under the given collection ids. -/
def get_keys_for_collections (d : MediaDict) (ids : List String) :
    List String :=
  if ids = [] then []
  else
    (ids.foldl
      (fun (acc : List String × List String) cid =>
        ((alookup d.collection_keys cid).getD []).foldl
          (fun (acc : List String × List String) key =>
            let fid := (alookup d.key_to_file_id key).getD key
            if fid ∈ acc.1 then acc else (acc.1 ++ [fid], acc.2 ++ [key]))
          acc)
      ([], [])).2

/-! ## Device queue (`src/queue.py`) -/

/-- The view a `DeviceQueue` has of the shared `MediaDict` collaborator:
its key set (`media_dict.keys()`), its `photo_keys` tuple, and key
resolution.

Modelled from the spec: `MediaDict.ensure_metadata`, called by
`DeviceQueue.get_next`, is not defined in `src/`; per the spec
(`MediaCatalog.get`), it "returns the current record, or signals missing
if the on-disk file behind a previously-known key no longer exists at
lookup time".  It is modelled as the abstract resolution function
`resolve`; the lazy-resync side effect of a miss mutates only the shared
catalog, never the queue, and is verified separately on `getitem`. -/
structure CatView where
  keys : List String
  photo_keys : List String
  resolve : String → Option MediaFile

/-- The mutable state of a `DeviceQueue`.

`queue` and `shuffle` are the fields of `src/queue.py`; `storage` is the
content of the pickle file `queue_{device_id}.pkl` (`none` = absent or
corrupt).

Modelled from the spec: the allow-list store behind
`DeviceQueue.set_allowed_keys` (called by
`DeviceQueueManager.get_device_data` but not defined in `src/`) is the
`allowed` field; `none` means unrestricted, in which case `_get_keys`
falls back to the full catalog key set exactly as in `src/queue.py`. -/
structure DeviceQueue where
  shuffle : Bool
  allowed : Option (List String)
  queue : List String
  storage : Option (List String)
deriving DecidableEq, Repr

/-- `DeviceQueue._get_keys`: explicit keys, else the allow-list, else the
full catalog key set — always de-duplicated by `dict.fromkeys`. -/
def _get_keys (cat : CatView) (q : DeviceQueue)
    (keys : Option (List String)) : List String :=
  match keys with
  | some ks => dedupF ks
  | none =>
    match q.allowed with
    | some ks => dedupF ks
    | none => dedupF cat.keys

/-- `DeviceQueue.update_queue` (the `save_queue` after each mutation is
the `storage` update); `shuf` stands for `random.shuffle`. -/
def update_queue (cat : CatView) (shuf : List String → List String)
    (q : DeviceQueue) (keys : Option (List String)) (replace : Bool) :
    DeviceQueue :=
  let ks := _get_keys cat q keys
  if ks = [] then { q with queue := [], storage := some [] }
  else
    let combined :=
      if replace = true then dedupF ks
      else ks.reverse ++ q.queue.filter (fun kk => decide (kk ∉ ks.reverse))
    let qd := if q.shuffle = true then shuf combined else combined
    { q with queue := qd, storage := some qd }

/-- `DeviceQueue.get_next`, written with explicit fuel: one unit per
iteration of the `while True` loop; `none` means the fuel ran out.  Each
iteration pops from the tail of the list (`self.queue.pop()`),
resolves the key against the catalog and either returns, or saves the
shorter queue and retries. -/
def get_next (cat : CatView) (shuf : List String → List String) :
    Nat → Bool → DeviceQueue → Option (Option MediaFile × DeviceQueue)
  | 0, _, _ => none
  | Nat.succ fuel, only_photo, q =>
    let q1 := if q.queue = [] then update_queue cat shuf q none true else q
    if q1.queue = [] then some (none, q1)
    else if only_photo = true ∧ cat.photo_keys.length = 0 then some (none, q1)
    else
      match q1.queue.getLast? with
      | none => some (none, q1)
      | some key =>
        let rest := q1.queue.dropLast
        let q2 := { q1 with queue := rest, storage := some rest }
        match cat.resolve key with
        | none => get_next cat shuf fuel only_photo q2
        | some m =>
          if only_photo = true ∧ m.is_video = true then
            get_next cat shuf fuel only_photo q2
          else some (some m, q2)

/-- `DeviceQueue.get_next_counters`. -/
def get_next_counters (cat : CatView) (shuf : List String → List String)
    (fuel : Nat) (only_photo : Bool) (q : DeviceQueue) :
    Option (Option (MediaFile × Nat × Nat) × DeviceQueue) :=
  match get_next cat shuf fuel only_photo q with
  | none => none
  | some (media, q1) =>
    let total := (_get_keys cat q1 none).length
    match media with
    | none => some (none, q1)
    | some m =>
      if total = 0 then some (none, q1)
      else some (some (m, total - q1.queue.length, total), q1)

/-- Modelled from the spec: `DeviceQueue.set_allowed_keys`, called by
`DeviceQueueManager.get_device_data` and `update_query` but not defined in
`src/`.  Per the spec it "replaces the allow-list; filters the in-memory
list to the new allow-list; if the allow-list identity changed or the
filtered list is now empty, forces an immediate refill".  A queue that had
no allow-list yet (fresh instance) is not treated as a change of identity
— otherwise the spec's crash-recovery property P5 could not hold across a
restart. -/
def set_allowed_keys (cat : CatView) (shuf : List String → List String)
    (q : DeviceQueue) (B : List String) : DeviceQueue :=
  let changed :=
    match q.allowed with
    | none => false
    | some A => decide (A ≠ B)
  let filtered := q.queue.filter (fun kk => decide (kk ∈ B))
  let q1 := { q with allowed := some B, queue := filtered }
  if changed = true ∨ filtered = [] then update_queue cat shuf q1 none true
  else { q1 with storage := some filtered }

/-- `DeviceQueue.__init__` as constructed by
`DeviceQueueManager.get_device_data` (no `active_keys_getter`):
`load_queue` (file content, or `[]` when absent/corrupt, then
`save_queue`), then `update_queue(replace=True)` only if the loaded queue
is empty. -/
def initQueue (cat : CatView) (shuf : List String → List String)
    (stored : Option (List String)) (sh : Bool) : DeviceQueue :=
  let loaded := stored.getD []
  let q : DeviceQueue :=
    { shuffle := sh, allowed := none, queue := loaded, storage := some loaded }
  if q.queue = [] then update_queue cat shuf q none true else q

/-- Iterate `get_next` `n` times, collecting the returned records; `none`
if any call runs out of fuel or returns "no media". -/
def takeN (cat : CatView) (shuf : List String → List String) (fuel : Nat)
    (only_photo : Bool) : Nat → DeviceQueue →
    Option (List MediaFile × DeviceQueue)
  | 0, q => some ([], q)
  | Nat.succ n, q =>
    match get_next cat shuf fuel only_photo q with
    | some (some m, q1) =>
      match takeN cat shuf fuel only_photo n q1 with
      | some (ms, q2) => some (m :: ms, q2)
      | none => none
    | _ => none

/-! ## Device manager (`src/device_manager.py`) -/

/-- The `DeviceInfo` fields `DeviceQueueManager.get_next` consults. -/
structure DeviceInfoV where
  only_photo : Bool
  sequential_mode : Bool
  show_counters : Bool
deriving DecidableEq, Repr

/-- `DeviceQueueManager.get_next` for an already-created queue `q`:
`get_device_data` resolves the allow-list from the device's collections,
refreshes `shuffle`, calls `set_allowed_keys`, then dispatches to
`get_next_counters` or `get_next`.  The result pairs the record with the
optional `(position, total)` counters; `none` in the first component is
the "no media" outcome. -/
def manager_get_next (cat : CatView) (shuf : List String → List String)
    (fuel : Nat) (d : MediaDict) (q : DeviceQueue) (info : DeviceInfoV)
    (collections : List String) :
    Option (Option (MediaFile × Option (Nat × Nat)) × DeviceQueue) :=
  let allowed_keys := get_keys_for_collections d collections
  let q1 := { q with shuffle := !info.sequential_mode }
  let q2 := set_allowed_keys cat shuf q1 allowed_keys
  if info.show_counters = true then
    match get_next_counters cat shuf fuel info.only_photo q2 with
    | none => none
    | some (none, q3) => some (none, q3)
    | some (some (m, pos, tot), q3) => some (some (m, some (pos, tot)), q3)
  else
    match get_next cat shuf fuel info.only_photo q2 with
    | none => none
    | some (none, q3) => some (none, q3)
    | some (some m, q3) => some (some (m, none), q3)

/-! ## Queue lemmas -/

theorem update_queue_allowed (cat : CatView) (shuf : List String → List String)
    (q : DeviceQueue) (keys : Option (List String)) (rep : Bool) :
    (update_queue cat shuf q keys rep).allowed = q.allowed := by
  unfold update_queue
  by_cases h : _get_keys cat q keys = [] <;> simp [h]

theorem update_queue_shuffle (cat : CatView) (shuf : List String → List String)
    (q : DeviceQueue) (keys : Option (List String)) (rep : Bool) :
    (update_queue cat shuf q keys rep).shuffle = q.shuffle := by
  unfold update_queue
  by_cases h : _get_keys cat q keys = [] <;> simp [h]

/-- A refill (`update_queue(replace=True)`) over allow-list `A ≠ []`
installs the (optionally shuffled) de-duplicated allow-list outright and
persists it. -/
theorem update_queue_refill (cat : CatView) (shuf : List String → List String)
    (q : DeviceQueue) (A : List String) (hA : q.allowed = some A)
    (hne : A ≠ []) :
    update_queue cat shuf q none true =
      { q with
        queue := if q.shuffle = true then shuf (dedupF A) else dedupF A,
        storage := some (if q.shuffle = true then shuf (dedupF A)
          else dedupF A) } := by
  unfold update_queue _get_keys
  rw [hA]
  simp [dedupF_ne_nil hne, dedupF_idem]

/-- A refill over an empty allow-list empties and persists the queue. -/
theorem update_queue_refill_nil (cat : CatView)
    (shuf : List String → List String) (q : DeviceQueue)
    (hA : q.allowed = some []) :
    update_queue cat shuf q none true =
      { q with queue := [], storage := some [] } := by
  unfold update_queue _get_keys
  rw [hA]
  simp [dedupF, dedupAux]

/-- One successful `get_next` call: with a non-empty queue whose tail key
resolves, the call pops exactly that key, persists the shorter queue and
returns the record. -/
theorem get_next_pop (cat : CatView) (shuf : List String → List String)
    (sh : Bool) (al : Option (List String)) (st : Option (List String))
    (a : String) (r : List String) (m : MediaFile)
    (hm : cat.resolve a = some m) :
    get_next cat shuf 1 false ⟨sh, al, (a :: r).reverse, st⟩ =
      some (some m, ⟨sh, al, r.reverse, some r.reverse⟩) := by
  simp [get_next, List.reverse_cons, List.getLast?_concat,
    List.dropLast_concat, hm]

/-- Core run lemma: starting from queue contents `r.reverse` whose keys
all resolve, `j ≤ |r|` successive `get_next` calls (photo filter off)
dispense exactly the first `j` keys of `r` in order, leaving the rest. -/
theorem takeN_run (cat : CatView) (shuf : List String → List String) :
    ∀ (j : Nat) (r : List String) (sh : Bool) (al : Option (List String))
      (st : Option (List String)),
    j ≤ r.length →
    (∀ kk ∈ r, (cat.resolve kk).isSome = true) →
    takeN cat shuf 1 false j ⟨sh, al, r.reverse, st⟩ =
      some ((r.take j).filterMap cat.resolve,
        ⟨sh, al, (r.drop j).reverse,
          if j = 0 then st else some ((r.drop j).reverse)⟩) := by
  intro j
  induction j with
  | zero => intro r sh al st _ _; simp [takeN]
  | succ n ih =>
    intro r sh al st hle hval
    match r with
    | [] => simp at hle
    | a :: r' =>
      obtain ⟨m, hm⟩ := Option.isSome_iff_exists.mp
        (hval a (List.mem_cons_self _ _))
      have hrec := ih r' sh al (some r'.reverse)
        (Nat.le_of_succ_le_succ hle)
        (fun kk hk => hval kk (List.mem_cons_of_mem _ hk))
      simp only [takeN, get_next_pop cat shuf sh al st a r' m hm, hrec]
      by_cases hn : n = 0
      · simp [hn, List.take, List.drop, hm]
      · simp [hn, List.take, List.drop, hm]

/-! ## Claim C1 -/

/-- C1: for a device queue with a fixed allow-list `A`, a refill installs
a permutation of the de-duplicated allow-list; the keys dispensed by
successive `get_next` calls (the reverse of the stored list, since
`self.queue.pop()` pops from the tail) are duplicate-free and range over
exactly the allow-list — every key once before any repeat — and after
each call the in-memory queue is a duplicate-free subset of the
allow-list. -/
theorem C1_no_repeat_before_refill (cat : CatView)
    (shuf : List String → List String) (hshuf : ∀ l, List.Perm (shuf l) l)
    (q : DeviceQueue) (A : List String) (hA : q.allowed = some A)
    (hne : A ≠ []) (hval : ∀ kk ∈ A, (cat.resolve kk).isSome = true)
    (q0 : DeviceQueue) (hq0 : q0 = update_queue cat shuf q none true) :
    List.Perm q0.queue (dedupF A) ∧
    q0.queue.reverse.Nodup ∧
    (∀ kk, kk ∈ q0.queue.reverse ↔ kk ∈ A) ∧
    (∀ j, j ≤ q0.queue.length →
      ∃ qj, takeN cat shuf 1 false j q0 =
          some ((q0.queue.reverse.take j).filterMap cat.resolve, qj) ∧
        qj.queue = (q0.queue.reverse.drop j).reverse ∧
        qj.queue.Nodup ∧ (∀ kk ∈ qj.queue, kk ∈ A)) := by
  obtain ⟨sh, al, qu, st⟩ := q
  have hA' : al = some A := hA
  subst hA'
  rw [update_queue_refill cat shuf _ A rfl hne] at hq0
  set qd := if sh = true then shuf (dedupF A) else dedupF A with hqd
  have hq0' : q0 = ⟨sh, some A, qd, some qd⟩ := hq0
  subst hq0'
  have hperm : List.Perm qd (dedupF A) := by
    rw [hqd]
    split
    · exact hshuf _
    · exact List.Perm.refl _
  have hndqd : qd.Nodup := (hperm.nodup_iff).mpr (dedupF_nodup A)
  have hmem : ∀ kk, kk ∈ qd ↔ kk ∈ A := fun kk =>
    (hperm.mem_iff).trans mem_dedupF
  refine ⟨hperm, ?_, ?_, ?_⟩
  · simpa [List.nodup_reverse] using hndqd
  · intro kk
    rw [List.mem_reverse]
    exact hmem kk
  · intro j hj
    have hrun := takeN_run cat shuf j qd.reverse sh (some A) (some qd)
      (by simpa using hj)
      (fun kk hk => hval kk ((hmem kk).mp (List.mem_reverse.mp hk)))
    rw [List.reverse_reverse] at hrun
    refine ⟨_, hrun, rfl, ?_, ?_⟩
    · exact (List.nodup_reverse).mpr
        (((List.drop_sublist _ _).nodup)
          ((List.nodup_reverse).mpr hndqd))
    · intro kk hk
      have : kk ∈ qd.reverse :=
        (List.drop_sublist _ _).mem (List.mem_reverse.mp hk)
      exact (hmem kk).mp (List.mem_reverse.mp this)

/-- Shared witness fixture: a catalog over keys `a`, `b` where every key
resolves to a photo record. -/
def resolveW : String → Option MediaFile := fun k =>
  some { file := k, relative_path := k, is_video := false, duration := none }

/-- Shared witness fixture: the catalog view. -/
def catW : CatView := ⟨["a", "b"], ["a", "b"], resolveW⟩

/-- Shared witness fixture: a sequential queue whose allow-list is
`["a", "b"]`. -/
def qW : DeviceQueue := ⟨false, some ["a", "b"], [], none⟩

/-- Witness for C1 at the concrete fixture. -/
theorem C1_no_repeat_before_refill_witness :
    (qW.allowed = some ["a", "b"] ∧ ["a", "b"] ≠ ([] : List String) ∧
      (∀ kk ∈ ["a", "b"], (catW.resolve kk).isSome = true)) ∧
    (List.Perm (update_queue catW (fun l => l) qW none true).queue
      (dedupF ["a", "b"]) ∧
    (update_queue catW (fun l => l) qW none true).queue.reverse.Nodup ∧
    (∀ kk, kk ∈ (update_queue catW (fun l => l) qW none true).queue.reverse ↔
      kk ∈ ["a", "b"]) ∧
    (∀ j, j ≤ (update_queue catW (fun l => l) qW none true).queue.length →
      ∃ qj, takeN catW (fun l => l) 1 false j
          (update_queue catW (fun l => l) qW none true) =
          some (((update_queue catW (fun l => l) qW none
            true).queue.reverse.take j).filterMap catW.resolve, qj) ∧
        qj.queue = ((update_queue catW (fun l => l) qW none
          true).queue.reverse.drop j).reverse ∧
        qj.queue.Nodup ∧ (∀ kk ∈ qj.queue, kk ∈ ["a", "b"]))) :=
  ⟨⟨rfl, by decide, by decide⟩,
    C1_no_repeat_before_refill catW (fun l => l) (fun l => List.Perm.refl l)
      qW ["a", "b"] rfl (by decide) (by decide) _ rfl⟩

/-! ## Claim C3 -/

/-- C3: a fresh `DeviceQueue` constructed over a persisted queue of `N`
remaining keys resumes the interrupted cycle: no refill or shuffle is
performed while the loaded list is non-empty (`queue = l` exactly), and
the first `N` `get_next` calls dispense exactly those `N` keys — the keys
of `l` popped from the tail, i.e. `l.reverse`, the persisted dispensing
order — with no loss and no duplicates, emptying the queue. -/
theorem C3_crash_recovery (cat : CatView)
    (shuf : List String → List String) (l : List String) (sh : Bool)
    (hne : l ≠ []) (hnd : l.Nodup)
    (hval : ∀ kk ∈ l, (cat.resolve kk).isSome = true)
    (q0 : DeviceQueue) (hq0 : q0 = initQueue cat shuf (some l) sh) :
    q0.queue = l ∧
    l.reverse.Nodup ∧
    takeN cat shuf 1 false l.length q0 =
      some (l.reverse.filterMap cat.resolve, ⟨sh, none, [], some []⟩) := by
  have hq0' : q0 = ⟨sh, none, l, some l⟩ := by
    rw [hq0]
    unfold initQueue
    simp [hne]
  subst hq0'
  refine ⟨rfl, by simpa [List.nodup_reverse] using hnd, ?_⟩
  have hrun := takeN_run cat shuf l.length l.reverse sh none (some l)
    (by simp) (fun kk hk => hval kk (List.mem_reverse.mp hk))
  rw [List.reverse_reverse] at hrun
  have h1 : List.take l.length l.reverse = l.reverse :=
    List.take_of_length_le (by simp)
  have h2 : List.drop l.length l.reverse = [] :=
    List.drop_eq_nil_of_le (by simp)
  have h3 : l.length ≠ 0 := fun h => hne (List.length_eq_zero.mp h)
  rw [h1, h2] at hrun
  simpa [h3] using hrun

/-- Witness for C3: reload a persisted queue `["a", "b"]` and drain it. -/
theorem C3_crash_recovery_witness :
    ((["a", "b"] : List String) ≠ [] ∧ (["a", "b"] : List String).Nodup ∧
      (∀ kk ∈ ["a", "b"], (catW.resolve kk).isSome = true)) ∧
    ((initQueue catW (fun l => l) (some ["a", "b"]) false).queue =
      ["a", "b"] ∧
    (["a", "b"] : List String).reverse.Nodup ∧
    takeN catW (fun l => l) 1 false 2
      (initQueue catW (fun l => l) (some ["a", "b"]) false) =
      some ((["a", "b"] : List String).reverse.filterMap catW.resolve,
        ⟨false, none, [], some []⟩)) :=
  ⟨⟨by decide, by decide, by decide⟩,
    C3_crash_recovery catW (fun l => l) ["a", "b"] false (by decide)
      (by decide) (by decide) _ rfl⟩

/-! ## Claim C6 -/

theorem _get_keys_nodup (cat : CatView) (q : DeviceQueue)
    (keys : Option (List String)) : (_get_keys cat q keys).Nodup := by
  unfold _get_keys
  match keys with
  | some ks => exact dedupF_nodup ks
  | none =>
    match q.allowed with
    | some ks => exact dedupF_nodup ks
    | none => exact dedupF_nodup cat.keys

/-- Counterexample to C6 as stated: in sequential mode (`shuffle = False`)
a refill installs the allow-list `["a", "b"]` in natural order, but
`get_next` pops from the tail of the list, so the first key dispensed
after the refill is `"b"` — the natural order would dispense `"a"`
first.  Sequential dispensing after a refill is therefore the reverse of
the allow-list's natural order (unlike the `replace=False` branch of
`update_queue`, which reverses the incoming keys precisely to compensate
for the tail pop). -/
theorem C6_counterexample :
    get_next catW (fun l => l) 1 false
        (update_queue catW (fun l => l) qW none true) =
      some (some (⟨"b", "b", false, none⟩ : MediaFile),
        ⟨false, some ["a", "b"], ["a"], some ["a"]⟩) ∧
    ("b" : String) ≠ "a" := by
  constructor
  · decide
  · decide

/-- C6 as amended: for a refill (`update_queue(replace=True)`), the
candidate set is exactly `_get_keys(None)` — the de-duplicated allow-list,
or the catalog's full key set when the device is unrestricted; an empty
candidate set empties the queue; otherwise, in shuffle mode the installed
list is `random.shuffle` applied to the candidate set (a permutation of
it) replacing the list outright, in sequential mode the candidate set is
installed in its natural order (and is then dispensed from the tail, i.e.
in reverse natural order); the queue is persisted after the mutation. -/
theorem C6_refill_amended (cat : CatView) (shuf : List String → List String)
    (hshuf : ∀ l, List.Perm (shuf l) l) (q : DeviceQueue)
    (ks : List String) (hks : ks = _get_keys cat q none) :
    (q.allowed = none → ks = dedupF cat.keys) ∧
    (∀ A, q.allowed = some A → ks = dedupF A) ∧
    (ks = [] → update_queue cat shuf q none true =
      { q with queue := [], storage := some [] }) ∧
    (ks ≠ [] →
      (q.shuffle = false → (update_queue cat shuf q none true).queue = ks) ∧
      List.Perm (update_queue cat shuf q none true).queue ks ∧
      (update_queue cat shuf q none true).storage =
        some (update_queue cat shuf q none true).queue) := by
  subst hks
  refine ⟨?_, ?_, ?_, ?_⟩
  · intro h
    unfold _get_keys
    rw [h]
  · intro A h
    unfold _get_keys
    rw [h]
  · intro h
    unfold update_queue
    simp [h]
  · intro h
    have hnd := _get_keys_nodup cat q none
    have hdd : dedupF (_get_keys cat q none) = _get_keys cat q none :=
      dedupF_of_nodup hnd
    unfold update_queue
    simp only [if_neg h, hdd, if_pos rfl]
    refine ⟨?_, ?_, ?_⟩
    · intro hsh
      simp [hsh]
    · split
      · exact hshuf _
      · exact List.Perm.refl _
    · trivial

/-- Witness for the amended C6 at the concrete fixture. -/
theorem C6_refill_amended_witness :
    (["a", "b"] = _get_keys catW qW none) ∧
    ((qW.allowed = none → ["a", "b"] = dedupF catW.keys) ∧
    (∀ A, qW.allowed = some A → ["a", "b"] = dedupF A) ∧
    ((["a", "b"] : List String) = [] →
      update_queue catW (fun l => l) qW none true =
        { qW with queue := [], storage := some [] }) ∧
    ((["a", "b"] : List String) ≠ [] →
      (qW.shuffle = false →
        (update_queue catW (fun l => l) qW none true).queue = ["a", "b"]) ∧
      List.Perm (update_queue catW (fun l => l) qW none true).queue
        ["a", "b"] ∧
      (update_queue catW (fun l => l) qW none true).storage =
        some (update_queue catW (fun l => l) qW none true).queue)) :=
  ⟨by decide,
    C6_refill_amended catW (fun l => l) (fun l => List.Perm.refl l) qW
      ["a", "b"] (by decide)⟩

/-! ## Claim C2 -/

/-- C2: `setAllowedKeys(B)` replaces the allow-list with `B`, filters the
in-memory list to `B`, and when the allow-list changed or the filtered
list became empty, immediately refills so that the next cycle spans
exactly `B` (a permutation of the de-duplicated `B`; empty when `B` is
empty). -/
theorem C2_set_allowed_keys (cat : CatView)
    (shuf : List String → List String) (hshuf : ∀ l, List.Perm (shuf l) l)
    (q : DeviceQueue) (B : List String)
    (q' : DeviceQueue) (hq' : q' = set_allowed_keys cat shuf q B) :
    q'.allowed = some B ∧
    (∀ kk ∈ q'.queue, kk ∈ B) ∧
    (((match q.allowed with
        | none => false
        | some A => decide (A ≠ B)) = true ∨
        q.queue.filter (fun kk => decide (kk ∈ B)) = []) →
      (B = [] → q'.queue = []) ∧
      (B ≠ [] → List.Perm q'.queue (dedupF B) ∧
        (∀ kk, kk ∈ q'.queue ↔ kk ∈ B))) := by
  obtain ⟨sh, al, qu, st⟩ := q
  unfold set_allowed_keys at hq'
  by_cases hcond : ((match (⟨sh, al, qu, st⟩ : DeviceQueue).allowed with
      | none => false
      | some A => decide (A ≠ B)) = true ∨
      (⟨sh, al, qu, st⟩ : DeviceQueue).queue.filter
        (fun kk => decide (kk ∈ B)) = [])
  · rw [if_pos hcond] at hq'
    rcases List.eq_nil_or_concat B with hB | ⟨B0, b, hB⟩
    · subst hB
      rw [update_queue_refill_nil cat shuf _ rfl] at hq'
      subst hq'
      refine ⟨rfl, by simp, fun _ => ⟨fun _ => rfl, fun hne => absurd rfl hne⟩⟩
    · have hBne : B ≠ [] := by
        rw [hB]
        simp
      rw [update_queue_refill cat shuf _ B rfl hBne] at hq'
      subst hq'
      set qd := if sh = true then shuf (dedupF B) else dedupF B with hqd
      have hperm : List.Perm qd (dedupF B) := by
        rw [hqd]
        split
        · exact hshuf _
        · exact List.Perm.refl _
      have hmem : ∀ kk, kk ∈ qd ↔ kk ∈ B := fun kk =>
        (hperm.mem_iff).trans mem_dedupF
      exact ⟨rfl, fun kk hk => (hmem kk).mp hk,
        fun _ => ⟨fun hBnil => absurd hBnil hBne,
          fun _ => ⟨hperm, hmem⟩⟩⟩
  · rw [if_neg hcond] at hq'
    subst hq'
    refine ⟨rfl, ?_, fun hc => absurd hc hcond⟩
    intro kk hk
    have := List.of_mem_filter hk
    simpa using this

/-- Witness for C2: shrink the allow-list of a partially drained queue
from `["a", "b"]` to `["b", "c"]`; the change forces a refill spanning
exactly the new allow-list. -/
theorem C2_set_allowed_keys_witness :
    ((⟨false, some ["a", "b"], ["a"], some ["a"]⟩ : DeviceQueue).allowed =
        some ["a", "b"] ∧
      set_allowed_keys catW (fun l => l)
        ⟨false, some ["a", "b"], ["a"], some ["a"]⟩ ["b", "c"] =
        ⟨false, some ["b", "c"], ["b", "c"], some ["b", "c"]⟩) ∧
    ((set_allowed_keys catW (fun l => l)
        ⟨false, some ["a", "b"], ["a"], some ["a"]⟩ ["b", "c"]).allowed =
      some ["b", "c"] ∧
    (∀ kk ∈ (set_allowed_keys catW (fun l => l)
        ⟨false, some ["a", "b"], ["a"], some ["a"]⟩ ["b", "c"]).queue,
      kk ∈ ["b", "c"]) ∧
    (((match (⟨false, some ["a", "b"], ["a"], some ["a"]⟩ :
          DeviceQueue).allowed with
        | none => false
        | some A => decide (A ≠ ["b", "c"])) = true ∨
        (⟨false, some ["a", "b"], ["a"], some ["a"]⟩ :
          DeviceQueue).queue.filter
          (fun kk => decide (kk ∈ ["b", "c"])) = []) →
      (["b", "c"] = ([] : List String) →
        (set_allowed_keys catW (fun l => l)
          ⟨false, some ["a", "b"], ["a"], some ["a"]⟩ ["b", "c"]).queue =
          []) ∧
      ((["b", "c"] : List String) ≠ [] →
        List.Perm (set_allowed_keys catW (fun l => l)
          ⟨false, some ["a", "b"], ["a"], some ["a"]⟩ ["b", "c"]).queue
          (dedupF ["b", "c"]) ∧
        (∀ kk, kk ∈ (set_allowed_keys catW (fun l => l)
            ⟨false, some ["a", "b"], ["a"], some ["a"]⟩ ["b", "c"]).queue ↔
          kk ∈ ["b", "c"])))) :=
  ⟨⟨rfl, by decide⟩,
    C2_set_allowed_keys catW (fun l => l) (fun l => List.Perm.refl l)
      ⟨false, some ["a", "b"], ["a"], some ["a"]⟩ ["b", "c"] _ rfl⟩

/-! ## Claim C5 -/

theorem get_next_allowed (cat : CatView) (shuf : List String → List String) :
    ∀ (fuel : Nat) (op : Bool) (q : DeviceQueue)
      (res : Option MediaFile × DeviceQueue),
    get_next cat shuf fuel op q = some res → res.2.allowed = q.allowed := by
  intro fuel
  induction fuel with
  | zero => intro op q res h; simp [get_next] at h
  | succ n ih =>
    intro op q res h
    simp only [get_next] at h
    set q1 := (if q.queue = [] then update_queue cat shuf q none true
      else q) with hq1def
    have hq1a : q1.allowed = q.allowed := by
      rw [hq1def]
      split
      · exact update_queue_allowed cat shuf q none true
      · rfl
    clear_value q1
    split at h
    · injection h with h2
      subst h2
      exact hq1a
    · split at h
      · injection h with h2
        subst h2
        exact hq1a
      · split at h
        · injection h with h2
          subst h2
          exact hq1a
        · split at h
          · exact (ih _ _ _ h).trans hq1a
          · split at h
            · exact (ih _ _ _ h).trans hq1a
            · injection h with h2
              subst h2
              exact hq1a

/-- C5: when `get_next_counters` returns a record with counters for a
device whose allow-list is `A`, the reported total is the size of the
allow-list (not of the whole catalog) and the position is the total minus
the number of keys still remaining in the in-memory list after
dispensing. -/
theorem C5_counters (cat : CatView) (shuf : List String → List String)
    (fuel : Nat) (op : Bool) (q : DeviceQueue) (A : List String)
    (hA : q.allowed = some A) (hnd : A.Nodup)
    (m : MediaFile) (pos tot : Nat) (q' : DeviceQueue)
    (h : get_next_counters cat shuf fuel op q =
      some (some (m, pos, tot), q')) :
    tot = A.length ∧ pos = A.length - q'.queue.length := by
  unfold get_next_counters at h
  cases hg : get_next cat shuf fuel op q with
  | none => rw [hg] at h; cases h
  | some r =>
    obtain ⟨media, q1⟩ := r
    rw [hg] at h
    have hal : q1.allowed = some A :=
      (get_next_allowed cat shuf fuel op q (media, q1) hg).trans hA
    have htot : _get_keys cat q1 none = A := by
      unfold _get_keys
      rw [hal]
      exact dedupF_of_nodup hnd
    simp only [htot] at h
    cases media with
    | none => cases h
    | some mm =>
      by_cases hz : A.length = 0
      · simp only [if_pos hz] at h
        cases h
      · simp only [if_neg hz] at h
        cases h
        exact ⟨rfl, rfl⟩

/-- Witness for C5: a counter-enabled fetch from the fixture queue reports
total 2 (the allow-list size) and position 1 with one key remaining. -/
theorem C5_counters_witness :
    (qW.allowed = some ["a", "b"] ∧ (["a", "b"] : List String).Nodup ∧
      get_next_counters catW (fun l => l) 1 false qW =
        some (some ((⟨"b", "b", false, none⟩ : MediaFile), 1, 2),
          ⟨false, some ["a", "b"], ["a"], some ["a"]⟩)) ∧
    ((1 : Nat) = (["a", "b"] : List String).length -
        (⟨false, some ["a", "b"], ["a"], some ["a"]⟩ :
          DeviceQueue).queue.length ∧
      (2 : Nat) = (["a", "b"] : List String).length) :=
  ⟨⟨rfl, by decide, by decide⟩,
    by
      have := C5_counters catW (fun l => l) 1 false qW ["a", "b"] rfl
        (by decide) ⟨"b", "b", false, none⟩ 1 2
        ⟨false, some ["a", "b"], ["a"], some ["a"]⟩ (by decide)
      exact ⟨this.2, this.1⟩⟩

/-! ## Claim C9 -/

/-- Collection ids that are all absent from the catalog's collection index
resolve to an empty allow-list (also covers an empty selection). -/
theorem get_keys_for_collections_nil (d : MediaDict) (ids : List String)
    (hc : ∀ cid ∈ ids, alookup d.collection_keys cid = none) :
    get_keys_for_collections d ids = [] := by
  unfold get_keys_for_collections
  by_cases h0 : ids = []
  · simp [h0]
  · rw [if_neg h0]
    suffices hfold : ∀ (ids2 : List String) (acc : List String × List String),
        (∀ cid ∈ ids2, alookup d.collection_keys cid = none) →
        ids2.foldl
          (fun (acc : List String × List String) cid =>
            ((alookup d.collection_keys cid).getD []).foldl
              (fun (acc : List String × List String) key =>
                let fid := (alookup d.key_to_file_id key).getD key
                if fid ∈ acc.1 then acc else (acc.1 ++ [fid], acc.2 ++ [key]))
              acc)
          acc = acc by
      rw [hfold ids ([], []) hc]
    intro ids2
    induction ids2 with
    | nil => intro acc _; rfl
    | cons c cs ih =>
      intro acc hcc
      have h1 : alookup d.collection_keys c = none :=
        hcc c (List.mem_cons_self _ _)
      simp only [List.foldl_cons, h1, Option.getD_none, List.foldl_nil]
      exact ih _ (fun cid hcid => hcc cid (List.mem_cons_of_mem _ hcid))

/-- A queue whose allow-list is empty stays empty and reports "no media"
in one loop iteration, for any remaining fuel. -/
theorem get_next_empty_state (cat : CatView)
    (shuf : List String → List String) (x : Bool) (n : Nat) (op : Bool) :
    get_next cat shuf (n + 1) op ⟨x, some [], [], some []⟩ =
      some (none, ⟨x, some [], [], some []⟩) := by
  have hu : update_queue cat shuf (⟨x, some [], [], some []⟩ : DeviceQueue)
      none true = ⟨x, some [], [], some []⟩ :=
    update_queue_refill_nil cat shuf _ rfl
  simp [get_next, hu]

theorem get_next_counters_empty_state (cat : CatView)
    (shuf : List String → List String) (x : Bool) (n : Nat) (op : Bool) :
    get_next_counters cat shuf (n + 1) op ⟨x, some [], [], some []⟩ =
      some (none, ⟨x, some [], [], some []⟩) := by
  unfold get_next_counters
  rw [get_next_empty_state]

/-- The modelled `set_allowed_keys` with an empty allow-list always
empties, refills (to empty) and persists the queue. -/
theorem set_allowed_keys_nil (cat : CatView)
    (shuf : List String → List String) (x : Bool)
    (al : Option (List String)) (qu : List String)
    (st : Option (List String)) :
    set_allowed_keys cat shuf ⟨x, al, qu, st⟩ [] =
      ⟨x, some [], [], some []⟩ := by
  unfold set_allowed_keys
  have hfil : qu.filter (fun kk => decide (kk ∈ ([] : List String))) = [] := by
    simp
  simp only [hfil]
  rw [if_pos (Or.inr trivial)]
  exact update_queue_refill_nil cat shuf _ rfl

/-- C9: a device whose selected collection ids no longer exist in the
catalog resolves to an empty allow-list, and `DeviceQueueManager.get_next`
(with or without counters, photo-only or not) terminates in a single loop
iteration with the well-defined "no media" result — no exception, no
infinite loop, and no fallback to any other collection set. -/
theorem C9_empty_allow_list_no_media (cat : CatView)
    (shuf : List String → List String) (d : MediaDict) (q : DeviceQueue)
    (info : DeviceInfoV) (cids : List String)
    (hc : ∀ cid ∈ cids, alookup d.collection_keys cid = none) :
    get_keys_for_collections d cids = [] ∧
    ∀ fuel, manager_get_next cat shuf (fuel + 1) d q info cids =
      some (none, ⟨!info.sequential_mode, some [], [], some []⟩) := by
  have hg := get_keys_for_collections_nil d cids hc
  refine ⟨hg, ?_⟩
  intro fuel
  obtain ⟨sh, al, qu, st⟩ := q
  unfold manager_get_next
  rw [hg]
  by_cases hsc : info.show_counters = true
  · rw [if_pos hsc]
    rw [show ({ (⟨sh, al, qu, st⟩ : DeviceQueue) with
        shuffle := !info.sequential_mode } : DeviceQueue) =
      ⟨!info.sequential_mode, al, qu, st⟩ from rfl]
    rw [set_allowed_keys_nil, get_next_counters_empty_state]
  · rw [if_neg hsc]
    rw [show ({ (⟨sh, al, qu, st⟩ : DeviceQueue) with
        shuffle := !info.sequential_mode } : DeviceQueue) =
      ⟨!info.sequential_mode, al, qu, st⟩ from rfl]
    rw [set_allowed_keys_nil, get_next_empty_state]

/-- Shared witness fixture: a one-photo catalog state whose only
collection is the root. -/
def dW : MediaDict :=
  ⟨[("k", ⟨"k.jpg", "k.jpg", false, none⟩)], [("id-k", "k")],
    [("k", "id-k")], [("", ["k"])], ["k"], []⟩

/-- Witness for C9: a device scoped to the vanished collection `"gone"`
gets an empty allow-list and "no media". -/
theorem C9_empty_allow_list_no_media_witness :
    (∀ cid ∈ ["gone"], alookup dW.collection_keys cid = none) ∧
    (get_keys_for_collections dW ["gone"] = [] ∧
    ∀ fuel, manager_get_next catW (fun l => l) (fuel + 1) dW qW
        ⟨false, false, true⟩ ["gone"] =
      some (none, ⟨true, some [], [], some []⟩)) :=
  ⟨by decide,
    C9_empty_allow_list_no_media catW (fun l => l) dW qW
      ⟨false, false, true⟩ ["gone"] (by decide)⟩

/-! ## Claim C10 -/

theorem addFound_entries (acc : SyncAcc) (key cid : String) :
    (addFound acc key cid).entries = acc.entries := rfl

theorem syncFile_keys_nodup (acc : SyncAcc) (f : FsFile)
    (h : (akeys acc.entries).Nodup) :
    (akeys (syncFile acc f).entries).Nodup := by
  unfold syncFile
  split
  · exact h
  split
  · exact h
  dsimp only
  split
  · rw [addFound_entries]
    split
    · split
      · exact akeys_aset_nodup _ h
      · exact h
    · exact h
  · rw [addFound_entries]
    exact akeys_aset_nodup _ h

theorem foldl_syncFile_keys_nodup :
    ∀ (fs : List FsFile) (acc : SyncAcc), (akeys acc.entries).Nodup →
    (akeys (fs.foldl syncFile acc).entries).Nodup := by
  intro fs
  induction fs with
  | nil => intro acc h; exact h
  | cons f fs ih =>
    intro acc h
    exact ih _ (syncFile_keys_nodup acc f h)

theorem value_unique_of_keys_nodup {E : List (String × MediaFile)}
    (h : (akeys E).Nodup) {s : String} {a b : MediaFile}
    (ha : (s, a) ∈ E) (hb : (s, b) ∈ E) : a = b := by
  have h1 := alookup_eq_of_mem_nodup h ha
  have h2 := alookup_eq_of_mem_nodup h hb
  rw [h1] at h2
  exact Option.some.inj h2

/-- The photo/video comprehensions over a key-nodup record list are
disjoint and jointly exhaustive. -/
theorem photo_video_partition (E : List (String × MediaFile))
    (h : (akeys E).Nodup) :
    (∀ kk, kk ∈ (E.filter (fun kv => !kv.2.is_video)).map Prod.fst →
      kk ∉ (E.filter (fun kv => kv.2.is_video)).map Prod.fst) ∧
    (∀ kk, kk ∈ akeys E ↔
      (kk ∈ (E.filter (fun kv => !kv.2.is_video)).map Prod.fst ∨
        kk ∈ (E.filter (fun kv => kv.2.is_video)).map Prod.fst)) := by
  constructor
  · intro kk hp hv
    rw [List.mem_map] at hp hv
    obtain ⟨kv1, hm1, hk1⟩ := hp
    obtain ⟨kv2, hm2, hk2⟩ := hv
    rw [List.mem_filter] at hm1 hm2
    obtain ⟨a1, b1⟩ := kv1
    obtain ⟨a2, b2⟩ := kv2
    simp only at hk1 hk2
    subst hk1
    subst hk2
    have hvb : b1 = b2 := value_unique_of_keys_nodup h hm1.1 hm2.1
    subst hvb
    have h1 := hm1.2
    have h2 := hm2.2
    simp only [Bool.not_eq_true'] at h1
    rw [h2] at h1
    cases h1
  · intro kk
    constructor
    · intro hk
      rw [akeys, List.mem_map] at hk
      obtain ⟨kv, hm, hk1⟩ := hk
      cases hb : kv.2.is_video with
      | false =>
        left
        rw [List.mem_map]
        exact ⟨kv, List.mem_filter.mpr ⟨hm, by rw [hb]; rfl⟩, hk1⟩
      | true =>
        right
        rw [List.mem_map]
        exact ⟨kv, List.mem_filter.mpr ⟨hm, by rw [hb]⟩, hk1⟩
    · intro hk
      rcases hk with hk | hk
      all_goals
        rw [List.mem_map] at hk
        obtain ⟨kv, hm, hk1⟩ := hk
        rw [akeys, List.mem_map]
        exact ⟨kv, (List.mem_filter.mp hm).1, hk1⟩

/-- C10: after every `sync_files` call (from any state whose dict keys are
unique, as Python dicts guarantee), the `photo_keys` and `video_keys`
comprehensions are disjoint and their union is exactly the catalog's key
set — every key is classified as exactly one of photo or video. -/
theorem C10_photo_video_partition_after_sync (d : MediaDict)
    (folders : List String) (fs : List FsFile)
    (hnd : (akeys d.entries).Nodup)
    (d' : MediaDict) (hd' : d' = (sync_files d folders fs).1) :
    (akeys d'.entries).Nodup ∧
    (∀ kk, kk ∈ d'.photo_keys → kk ∉ d'.video_keys) ∧
    (∀ kk, kk ∈ akeys d'.entries ↔
      (kk ∈ d'.photo_keys ∨ kk ∈ d'.video_keys)) := by
  subst hd'
  unfold sync_files
  dsimp only
  set acc := fs.foldl syncFile
    { entries := d.entries, file_id_to_key := d.file_id_to_key,
      key_to_file_id := d.key_to_file_id,
      collection_keys := folders.foldl
        (fun m c => match alookup m c with
          | some _ => m
          | none => m ++ [(c, [])]) [],
      new_keys := [], found_keys := [] } with hacc
  have haccnd : (akeys acc.entries).Nodup := by
    rw [hacc]
    exact foldl_syncFile_keys_nodup fs _ hnd
  have hEnd : (akeys (acc.entries.filter
      (fun kv => decide (kv.1 ∈ acc.found_keys)))).Nodup :=
    haccnd.sublist ((List.filter_sublist acc.entries).map Prod.fst)
  have hpart := photo_video_partition
    (acc.entries.filter (fun kv => decide (kv.1 ∈ acc.found_keys))) hEnd
  exact ⟨hEnd, hpart.1, hpart.2⟩

/-- Shared witness fixture: the empty catalog state. -/
def d0W : MediaDict := ⟨[], [], [], [], [], []⟩

/-- Shared witness fixture: one photo and one video on disk. -/
def fsW : List FsFile :=
  [⟨"p.jpg", "/g/p.jpg", 1, 1, "", MediaKind.photo, false, 0⟩,
   ⟨"v.mp4", "/g/v.mp4", 1, 2, "", MediaKind.video, false, 7⟩]

/-- Shared witness fixture: the catalog after scanning `fsW`. -/
def dSyncW : MediaDict := (sync_files d0W [""] fsW).1

/-- Witness for C10 at the concrete two-file scan. -/
theorem C10_photo_video_partition_after_sync_witness :
    (akeys d0W.entries).Nodup ∧
    ((akeys dSyncW.entries).Nodup ∧
    (∀ kk, kk ∈ dSyncW.photo_keys → kk ∉ dSyncW.video_keys) ∧
    (∀ kk, kk ∈ akeys dSyncW.entries ↔
      (kk ∈ dSyncW.photo_keys ∨ kk ∈ dSyncW.video_keys))) :=
  ⟨by decide,
    C10_photo_video_partition_after_sync d0W [""] fsW (by decide)
      dSyncW rfl⟩

/-! ## Scan frame lemmas (for C4, C7, C8) -/

theorem addFound_file_id (acc : SyncAcc) (key cid : String) :
    (addFound acc key cid).file_id_to_key = acc.file_id_to_key := rfl

theorem addFound_key_id (acc : SyncAcc) (key cid : String) :
    (addFound acc key cid).key_to_file_id = acc.key_to_file_id := rfl

theorem addFound_found_mono (acc : SyncAcc) (key cid : String) {k : String}
    (h : k ∈ acc.found_keys) : k ∈ (addFound acc key cid).found_keys := by
  unfold addFound
  dsimp only
  split
  · exact h
  · exact List.mem_append_left _ h

theorem addFound_found_self (acc : SyncAcc) (key cid : String) :
    key ∈ (addFound acc key cid).found_keys := by
  unfold addFound
  dsimp only
  split
  · assumption
  · exact List.mem_append_right _ (List.mem_singleton.mpr rfl)

theorem addFound_not_found (acc : SyncAcc) (key cid : String) {k : String}
    (hk : k ≠ key) (h : k ∉ acc.found_keys) :
    k ∉ (addFound acc key cid).found_keys := by
  unfold addFound
  dsimp only
  split
  · exact h
  · intro hmem
    rcases List.mem_append.mp hmem with hmem | hmem
    · exact h hmem
    · exact hk (List.mem_singleton.mp hmem)

theorem mem_aremove_subset {α : Type} {l : List (String × α)} {s : String}
    {p : String × α} (h : p ∈ aremove l s) : p ∈ l := by
  induction l with
  | nil => simp [aremove] at h
  | cons q rest ih =>
    by_cases hq : q.1 = s
    · simp only [aremove, if_pos hq] at h
      exact List.mem_cons_of_mem _ h
    · simp only [aremove, if_neg hq] at h
      rcases List.mem_cons.mp h with h | h
      · exact h ▸ List.mem_cons_self _ _
      · exact List.mem_cons_of_mem _ (ih h)

theorem alookup_filter_mem (E : List (String × MediaFile)) (F : List String)
    (k : String) (hk : k ∈ F) :
    alookup (E.filter (fun kv => decide (kv.1 ∈ F))) k = alookup E k := by
  induction E with
  | nil => rfl
  | cons q rest ih =>
    obtain ⟨a, b⟩ := q
    simp only [List.filter_cons]
    by_cases haf : a ∈ F
    · rw [show (decide ((a, b).1 ∈ F)) = true from by simpa using haf,
        if_pos rfl]
      by_cases ha : a = k
      · simp [alookup, ha]
      · simp only [alookup, if_neg ha]
        exact ih
    · rw [show (decide ((a, b).1 ∈ F)) = false from by simpa using haf,
        if_neg Bool.false_ne_true]
      have ha : a ≠ k := fun hh => haf (hh ▸ hk)
      simp only [alookup, if_neg ha]
      exact ih

theorem alookup_filter_not_mem (E : List (String × MediaFile))
    (F : List String) (k : String) (hk : k ∉ F) :
    alookup (E.filter (fun kv => decide (kv.1 ∈ F))) k = none := by
  induction E with
  | nil => rfl
  | cons q rest ih =>
    obtain ⟨a, b⟩ := q
    simp only [List.filter_cons]
    by_cases haf : a ∈ F
    · have ha : a ≠ k := fun hh => hk (hh ▸ haf)
      rw [show (decide ((a, b).1 ∈ F)) = true from by simpa using haf,
        if_pos rfl]
      simp only [alookup, if_neg ha]
      exact ih
    · rw [show (decide ((a, b).1 ∈ F)) = false from by simpa using haf,
        if_neg Bool.false_ne_true]
      exact ih

theorem pathExists_of_mem {fs : List FsFile} {f : FsFile} (h : f ∈ fs) :
    pathExists fs f.path = true := by
  unfold pathExists
  rw [List.any_eq_true]
  exact ⟨f, h, by simp⟩

theorem updateMedia1_not_updated (m : MediaFile) (iv : Bool)
    (h : (updateMedia1 m iv).2 = false) : (updateMedia1 m iv).1 = m := by
  unfold updateMedia1 at h ⊢
  split at h
  · cases h
  · split
    · simp_all
    · rfl

theorem updateMedia2_not_updated (r : MediaFile × Bool) (rel url : String)
    (h : (updateMedia2 r rel url).2 = false) :
    (updateMedia2 r rel url).1 = r.1 ∧ r.2 = false := by
  unfold updateMedia2 at h ⊢
  split at h
  · cases h
  · split
    · simp_all
    · exact ⟨rfl, h⟩

theorem updateMedia3_not_updated (r : MediaFile × Bool) (p : Nat)
    (h : (updateMedia3 r p).2 = false) :
    (updateMedia3 r p).1 = r.1 ∧ r.2 = false := by
  unfold updateMedia3 at h ⊢
  split at h
  · cases h
  · split
    · simp_all
    · exact ⟨rfl, h⟩

theorem updateMedia_not_updated (m : MediaFile) (iv : Bool) (rel url : String)
    (p : Nat) (h : (updateMedia m iv rel url p).2 = false) :
    (updateMedia m iv rel url p).1 = m := by
  unfold updateMedia at h ⊢
  obtain ⟨h3, h2'⟩ := updateMedia3_not_updated _ p h
  obtain ⟨h2, h1'⟩ := updateMedia2_not_updated _ rel url h2'
  have h1 := updateMedia1_not_updated m iv h1'
  rw [h3, h2, h1]

theorem updateMedia1_preserves (m : MediaFile) (iv : Bool) :
    (updateMedia1 m iv).1.is_video = iv ∧
    (updateMedia1 m iv).1.file = m.file ∧
    (updateMedia1 m iv).1.relative_path = m.relative_path ∧
    (updateMedia1 m iv).1.duration = m.duration := by
  unfold updateMedia1
  split
  · exact ⟨rfl, rfl, rfl, rfl⟩
  · rename_i hc
    simp only [ne_eq, not_not] at hc
    exact ⟨hc, rfl, rfl, rfl⟩

theorem updateMedia2_paths (r : MediaFile × Bool) (rel url : String) :
    (updateMedia2 r rel url).1.file = rel ∧
    (updateMedia2 r rel url).1.relative_path = url ∧
    (updateMedia2 r rel url).1.is_video = r.1.is_video ∧
    (updateMedia2 r rel url).1.duration = r.1.duration := by
  unfold updateMedia2
  split
  · exact ⟨rfl, rfl, rfl, rfl⟩
  · rename_i hc
    push_neg at hc
    exact ⟨hc.1, hc.2, rfl, rfl⟩

theorem updateMedia3_paths (r : MediaFile × Bool) (p : Nat) :
    (updateMedia3 r p).1.file = r.1.file ∧
    (updateMedia3 r p).1.relative_path = r.1.relative_path ∧
    (updateMedia3 r p).1.is_video = r.1.is_video := by
  unfold updateMedia3
  split
  · exact ⟨rfl, rfl, rfl⟩
  · exact ⟨rfl, rfl, rfl⟩

theorem updateMedia_fields (m : MediaFile) (iv : Bool) (rel url : String)
    (p : Nat) :
    (updateMedia m iv rel url p).1.file = rel ∧
    (updateMedia m iv rel url p).1.relative_path = url ∧
    (updateMedia m iv rel url p).1.is_video = iv := by
  unfold updateMedia
  obtain ⟨h3a, h3b, h3c⟩ := updateMedia3_paths (updateMedia2 (updateMedia1 m iv) rel url) p
  obtain ⟨h2a, h2b, h2c, _⟩ := updateMedia2_paths (updateMedia1 m iv) rel url
  obtain ⟨h1a, _, _, _⟩ := updateMedia1_preserves m iv
  rw [h3a, h3b, h3c, h2a, h2b, h2c, h1a]
  exact ⟨rfl, rfl, rfl⟩

theorem updateMedia_unchanged (m : MediaFile) (iv : Bool) (rel url : String)
    (p : Nat) (h1 : m.is_video = iv) (h2 : m.file = rel)
    (h3 : m.relative_path = url)
    (h4 : m.is_video = true → m.duration ≠ none) :
    updateMedia m iv rel url p = (m, false) := by
  unfold updateMedia
  have e1 : updateMedia1 m iv = (m, false) := by
    unfold updateMedia1
    rw [if_neg (by rw [h1]; simp)]
  rw [e1]
  have e2 : updateMedia2 (m, false) rel url = (m, false) := by
    unfold updateMedia2
    rw [if_neg (by dsimp only; rw [h2, h3]; simp)]
  rw [e2]
  unfold updateMedia3
  rw [if_neg ?_]
  dsimp only
  rintro ⟨hv, hd | hd⟩
  · exact h4 hv hd
  · cases hd

/-- Frame: a scanned file whose identity is not `I` and whose minted key
is not `k` leaves the catalog entry at `k`, the identity binding at `I`
and the two invariants untouched, and can only grow the found set. -/
theorem syncFile_frame (acc : SyncAcc) (g : FsFile) (k I : String)
    (hInv1 : ∀ p ∈ acc.file_id_to_key, p.2 = k → p.1 = I)
    (hInv2 : ∀ p ∈ acc.key_to_file_id, p.2 = I → p.1 = k)
    (havoid : ¬g.ignored = true → ¬g.kind = MediaKind.other →
      fileIdentity g ≠ I ∧ mintKey g ≠ k) :
    (∀ p ∈ (syncFile acc g).file_id_to_key, p.2 = k → p.1 = I) ∧
    (∀ p ∈ (syncFile acc g).key_to_file_id, p.2 = I → p.1 = k) ∧
    alookup (syncFile acc g).entries k = alookup acc.entries k ∧
    alookup (syncFile acc g).file_id_to_key I =
      alookup acc.file_id_to_key I ∧
    (k ∈ acc.found_keys → k ∈ (syncFile acc g).found_keys) := by
  by_cases hig : g.ignored = true
  · unfold syncFile
    rw [if_pos hig]
    exact ⟨hInv1, hInv2, rfl, rfl, fun h => h⟩
  by_cases hkind : g.kind = MediaKind.other
  · unfold syncFile
    rw [if_neg hig, if_pos hkind]
    exact ⟨hInv1, hInv2, rfl, rfl, fun h => h⟩
  obtain ⟨hfid, hmint⟩ := havoid hig hkind
  unfold syncFile
  rw [if_neg hig, if_neg hkind]
  dsimp only
  cases hlook : alookup acc.file_id_to_key (fileIdentity g) with
  | some key =>
    have hkey : key ≠ k := by
      intro hkk
      subst hkk
      exact hfid (hInv1 _ (alookup_mem hlook) rfl)
    refine ⟨?_, ?_, ?_, ?_, ?_⟩
    · rw [addFound_file_id]
      split
      · split
        · exact hInv1
        · exact hInv1
      · exact hInv1
    · rw [addFound_key_id]
      split
      · split
        · exact hInv2
        · exact hInv2
      · exact hInv2
    · rw [addFound_entries]
      split
      · split
        · exact alookup_aset_ne _ _ _ _ (Ne.symm hkey)
        · rfl
      · rfl
    · rw [addFound_file_id]
      split
      · split
        · rfl
        · rfl
      · rfl
    · intro h
      apply addFound_found_mono
      split
      · split
        · exact h
        · exact h
      · exact h
  | none =>
    refine ⟨?_, ?_, ?_, ?_, ?_⟩
    · rw [addFound_file_id]
      intro p hp hpk
      rcases mem_aset hp with hp | hp
      · exact hInv1 p hp hpk
      · subst hp
        exact absurd hpk hmint
    · rw [addFound_key_id]
      intro p hp hpI
      rcases mem_aset hp with hp | hp
      · exact hInv2 p hp hpI
      · subst hp
        exact absurd hpI hfid
    · rw [addFound_entries]
      exact alookup_aset_ne _ _ _ _ (Ne.symm hmint)
    · rw [addFound_file_id]
      exact alookup_aset_ne _ _ _ _ (Ne.symm hfid)
    · intro h
      exact addFound_found_mono _ _ _ h

/-- `syncFile_frame` lifted over a whole scan segment. -/
theorem foldl_syncFile_frame (k I : String) :
    ∀ (L : List FsFile) (acc : SyncAcc),
    (∀ p ∈ acc.file_id_to_key, p.2 = k → p.1 = I) →
    (∀ p ∈ acc.key_to_file_id, p.2 = I → p.1 = k) →
    (∀ g ∈ L, ¬g.ignored = true → ¬g.kind = MediaKind.other →
      fileIdentity g ≠ I ∧ mintKey g ≠ k) →
    (∀ p ∈ (L.foldl syncFile acc).file_id_to_key, p.2 = k → p.1 = I) ∧
    (∀ p ∈ (L.foldl syncFile acc).key_to_file_id, p.2 = I → p.1 = k) ∧
    alookup (L.foldl syncFile acc).entries k = alookup acc.entries k ∧
    alookup (L.foldl syncFile acc).file_id_to_key I =
      alookup acc.file_id_to_key I ∧
    (k ∈ acc.found_keys → k ∈ (L.foldl syncFile acc).found_keys) := by
  intro L
  induction L with
  | nil => intro acc h1 h2 _; exact ⟨h1, h2, rfl, rfl, fun h => h⟩
  | cons g L ih =>
    intro acc h1 h2 hav
    have hg := syncFile_frame acc g k I h1 h2
      (hav g (List.mem_cons_self _ _))
    rw [List.foldl_cons]
    obtain ⟨a1, a2, a3, a4, a5⟩ := hg
    obtain ⟨b1, b2, b3, b4, b5⟩ := ih (syncFile acc g) a1 a2
      (fun x hx => hav x (List.mem_cons_of_mem _ hx))
    exact ⟨b1, b2, b3.trans a3, b4.trans a4, fun h => b5 (a5 h)⟩

/-- The scan step at the target file itself: a re-observed identity reuses
its key and rewrites the record in place via `updateMedia`. -/
theorem syncFile_target (acc : SyncAcc) (f : FsFile) (k : String)
    (m : MediaFile) (hig : ¬f.ignored = true)
    (hkind : ¬f.kind = MediaKind.other)
    (hlook : alookup acc.file_id_to_key (fileIdentity f) = some k)
    (hent : alookup acc.entries k = some m) :
    alookup (syncFile acc f).entries k =
      some (updateMedia m (decide (f.kind = MediaKind.video)) f.path
        (urlQuote f.path) f.probed).1 ∧
    (syncFile acc f).file_id_to_key = acc.file_id_to_key ∧
    (syncFile acc f).key_to_file_id = acc.key_to_file_id ∧
    k ∈ (syncFile acc f).found_keys := by
  unfold syncFile
  rw [if_neg hig, if_neg hkind]
  dsimp only
  rw [hlook]
  dsimp only
  rw [hent]
  dsimp only
  by_cases hu : (updateMedia m (decide (f.kind = MediaKind.video)) f.path
      (urlQuote f.path) f.probed).2 = true
  · rw [if_pos hu]
    refine ⟨?_, rfl, rfl, addFound_found_self _ _ _⟩
    rw [addFound_entries]
    exact alookup_aset_self _ _ _
  · rw [if_neg hu]
    have hmu1 := updateMedia_not_updated m (decide (f.kind = MediaKind.video))
      f.path (urlQuote f.path) f.probed (by simpa using hu)
    refine ⟨?_, rfl, rfl, addFound_found_self _ _ _⟩
    rw [addFound_entries, hent, hmu1]

/-- The scan step for a newly observed identity: a fresh key is minted and
a fresh record created (with an eagerly probed duration for videos). -/
theorem syncFile_target_new (acc : SyncAcc) (f : FsFile)
    (hig : ¬f.ignored = true) (hkind : ¬f.kind = MediaKind.other)
    (hlook : alookup acc.file_id_to_key (fileIdentity f) = none) :
    alookup (syncFile acc f).entries (mintKey f) =
      some (⟨f.path, urlQuote f.path, decide (f.kind = MediaKind.video),
        if decide (f.kind = MediaKind.video) = true then some f.probed
        else none⟩ : MediaFile) ∧
    (syncFile acc f).file_id_to_key =
      aset acc.file_id_to_key (fileIdentity f) (mintKey f) ∧
    (syncFile acc f).key_to_file_id =
      aset acc.key_to_file_id (mintKey f) (fileIdentity f) ∧
    mintKey f ∈ (syncFile acc f).found_keys ∧
    alookup (syncFile acc f).file_id_to_key (fileIdentity f) =
      some (mintKey f) := by
  unfold syncFile
  rw [if_neg hig, if_neg hkind]
  dsimp only
  rw [hlook]
  dsimp only
  refine ⟨?_, rfl, rfl, addFound_found_self _ _ _, ?_⟩
  · rw [addFound_entries]
    exact alookup_aset_self _ _ _
  · rw [addFound_file_id]
    exact alookup_aset_self _ _ _

/-- Frame over the pruning pass: pruned keys different from `k` (all of
them, since `k` was re-observed) never remove the identity binding `I` of
`k`. -/
theorem pruneMaps_fold_frame (k I : String) :
    ∀ (ks : List String)
      (st : List (String × String) × List (String × String)),
    (∀ p ∈ st.1, p.2 = I → p.1 = k) →
    (∀ key ∈ ks, key ≠ k) →
    (∀ p ∈ (ks.foldl pruneMaps st).1, p.2 = I → p.1 = k) ∧
    alookup (ks.foldl pruneMaps st).2 I = alookup st.2 I := by
  intro ks
  induction ks with
  | nil => intro st h1 _; exact ⟨h1, rfl⟩
  | cons key ks ih =>
    intro st h1 hne
    have hkne : key ≠ k := hne key (List.mem_cons_self _ _)
    have hstep1 : ∀ p ∈ (pruneMaps st key).1, p.2 = I → p.1 = k := by
      intro p hp
      exact h1 p (mem_aremove_subset hp)
    have hstep2 : alookup (pruneMaps st key).2 I = alookup st.2 I := by
      unfold pruneMaps
      dsimp only
      cases hfid : alookup st.1 key with
      | none => rfl
      | some s =>
        dsimp only
        by_cases hs : s = ""
        · rw [if_pos hs]
        · rw [if_neg hs]
          have hsI : s ≠ I := by
            intro hh
            subst hh
            exact hkne (h1 _ (alookup_mem hfid) rfl)
          exact alookup_aremove_ne _ _ _ (Ne.symm hsI)
    rw [List.foldl_cons]
    obtain ⟨ha, hb⟩ := ih (pruneMaps st key) hstep1
      (fun x hx => hne x (List.mem_cons_of_mem _ hx))
    exact ⟨ha, hb.trans hstep2⟩

/-! ## Claim C4 -/

/-- C4 as amended: a file re-observed under a known filesystem identity
(e.g. after a rename that keeps device+inode) keeps its `MediaKey`:
`sync_files` reuses the existing key `k`, updates the record's path in
place to the new location and keeps the identity binding; and a queue
holding `k` still resolves it through `__getitem__` to the updated
record provided URL percent-quoting leaves the new path unchanged
(`hq`, e.g. a plain ASCII name) — because `__getitem__` checks on-disk
existence of the quoted `relative_path`, a quote-altered path never
resolves (see `C4_counterexample`).  The `l1`/`l2` hypotheses say that
no other scanned file carries the same identity or mints the same key,
and the two invariants say the state's identity maps associate `k` with
exactly this identity (as any state built by scans does). -/
theorem C4_identity_stability_amended (d : MediaDict) (folders : List String)
    (l1 l2 : List FsFile) (f : FsFile) (k : String) (m : MediaFile)
    (hig : ¬f.ignored = true) (hkind : ¬f.kind = MediaKind.other)
    (hpath : f.path ≠ "") (hq : urlQuote f.path = f.path)
    (hlook : alookup d.file_id_to_key (fileIdentity f) = some k)
    (hent : alookup d.entries k = some m)
    (hInv1 : ∀ p ∈ d.file_id_to_key, p.2 = k → p.1 = fileIdentity f)
    (hInv2 : ∀ p ∈ d.key_to_file_id, p.2 = fileIdentity f → p.1 = k)
    (havoid : ∀ g ∈ l1 ++ l2, ¬g.ignored = true →
      ¬g.kind = MediaKind.other →
      fileIdentity g ≠ fileIdentity f ∧ mintKey g ≠ k)
    (d' : MediaDict)
    (hd' : d' = (sync_files d folders (l1 ++ f :: l2)).1) :
    ∃ m', alookup d'.entries k = some m' ∧
      m'.file = f.path ∧ m'.relative_path = urlQuote f.path ∧
      alookup d'.file_id_to_key (fileIdentity f) = some k ∧
      getitem d' folders (l1 ++ f :: l2) k = (Except.ok (some m'), d') := by
  subst hd'
  unfold sync_files
  dsimp only
  set acc0 : SyncAcc := ⟨d.entries, d.file_id_to_key, d.key_to_file_id,
    folders.foldl (fun m c => match alookup m c with
      | some _ => m
      | none => m ++ [(c, [])]) [], [], []⟩ with hacc0
  set acc := (l1 ++ f :: l2).foldl syncFile acc0 with hacc
  have hfold : acc = l2.foldl syncFile (syncFile (l1.foldl syncFile acc0) f) := by
    rw [hacc, List.foldl_append, List.foldl_cons]
  obtain ⟨A1, A2, A3, A4, A5⟩ := foldl_syncFile_frame k (fileIdentity f)
    l1 acc0 hInv1 hInv2
    (fun g hg => havoid g (List.mem_append_left _ hg))
  obtain ⟨T1, T2, T3, T4⟩ := syncFile_target (l1.foldl syncFile acc0) f k m
    hig hkind (A4.trans hlook) (A3.trans hent)
  obtain ⟨B1, B2, B3, B4, B5⟩ := foldl_syncFile_frame k (fileIdentity f)
    l2 (syncFile (l1.foldl syncFile acc0) f)
    (by rw [T2]; exact A1) (by rw [T3]; exact A2)
    (fun g hg => havoid g (List.mem_append_right _ hg))
  have hacck : alookup acc.entries k =
      some (updateMedia m (decide (f.kind = MediaKind.video)) f.path
        (urlQuote f.path) f.probed).1 := by
    rw [hfold]
    exact B3.trans T1
  have hfound : k ∈ acc.found_keys := by
    rw [hfold]
    exact B5 T4
  have hf2kI : alookup acc.file_id_to_key (fileIdentity f) = some k := by
    rw [hfold]
    rw [B4, T2]
    exact A4.trans hlook
  have hInv2acc : ∀ p ∈ acc.key_to_file_id, p.2 = fileIdentity f →
      p.1 = k := by
    rw [hfold]
    exact B2
  have hprune_ne : ∀ key ∈ (akeys acc.entries).filter
      (fun kk => decide (kk ∉ acc.found_keys)), key ≠ k := by
    intro key hkey hkk
    subst hkk
    have hm := List.mem_filter.mp hkey
    have hnotf : key ∉ acc.found_keys := by simpa using hm.2
    exact hnotf hfound
  obtain ⟨P1, P2⟩ := pruneMaps_fold_frame k (fileIdentity f)
    ((akeys acc.entries).filter (fun kk => decide (kk ∉ acc.found_keys)))
    (acc.key_to_file_id, acc.file_id_to_key) hInv2acc hprune_ne
  have hE : alookup (acc.entries.filter
      (fun kv => decide (kv.1 ∈ acc.found_keys))) k =
      some (updateMedia m (decide (f.kind = MediaKind.video)) f.path
        (urlQuote f.path) f.probed).1 :=
    (alookup_filter_mem _ _ _ hfound).trans hacck
  obtain ⟨hfile, hrel, _⟩ := updateMedia_fields m
    (decide (f.kind = MediaKind.video)) f.path (urlQuote f.path) f.probed
  refine ⟨(updateMedia m (decide (f.kind = MediaKind.video)) f.path
    (urlQuote f.path) f.probed).1, hE, hfile, hrel, P2.trans hf2kI, ?_⟩
  unfold getitem
  dsimp only
  rw [hE]
  dsimp only
  rw [if_neg (by rw [hrel, hq]; exact hpath)]
  rw [show pathExists (l1 ++ f :: l2) (updateMedia m
      (decide (f.kind = MediaKind.video)) f.path (urlQuote f.path)
      f.probed).1.relative_path = true from by
    rw [hrel, hq]
    exact pathExists_of_mem (List.mem_append_right _ (List.mem_cons_self _ _))]
  rw [if_pos rfl]

/-- Shared witness fixture: catalog state after scanning one video
`v.mp4` (device 1, inode 42, probe 7). -/
def dC4 : MediaDict :=
  ⟨[("md5:/g/v.mp4", ⟨"v.mp4", "v.mp4", true, some 7⟩)],
   [("inode:1:42", "md5:/g/v.mp4")], [("md5:/g/v.mp4", "inode:1:42")],
   [("", ["md5:/g/v.mp4"])], [], ["md5:/g/v.mp4"]⟩

/-- Shared witness fixture: the same file after a rename (same device and
inode, new path). -/
def fR : FsFile :=
  ⟨"renamed.mp4", "/g/renamed.mp4", 1, 42, "", MediaKind.video, false, 9⟩

/-- Decidable equality for `__getitem__` results, used to evaluate the
embedding on concrete inputs. -/
instance {e a : Type} [DecidableEq e] [DecidableEq a] :
    DecidableEq (Except e a) := fun x y =>
  match x, y with
  | Except.ok u, Except.ok v =>
    if h : u = v then Decidable.isTrue (by rw [h])
    else Decidable.isFalse (by intro hc; injection hc; exact h (by assumption))
  | Except.error u, Except.error v =>
    if h : u = v then Decidable.isTrue (by rw [h])
    else Decidable.isFalse (by intro hc; injection hc; exact h (by assumption))
  | Except.ok _, Except.error _ => Decidable.isFalse (by intro hc; cases hc)
  | Except.error _, Except.ok _ => Decidable.isFalse (by intro hc; cases hc)

/-- Shared witness fixture: the `dC4` video renamed to `a b.mp4` — same
device and inode, but the new name contains a space, which URL quoting
turns into `a%20b.mp4`. -/
def fSp : FsFile :=
  ⟨"a b.mp4", "/g/a b.mp4", 1, 42, "", MediaKind.video, false, 9⟩

/-- Counterexample to C4 as stated: after renaming the catalogued video
to `a b.mp4` and resyncing, the catalog still maps the file to its old
key and the record's path is updated in place — but a queue holding that
key does NOT resolve it: `__getitem__` checks on-disk existence of
`media_dir / relative_path` where `relative_path` is the percent-quoted
URL `a%20b.mp4`, which is not the on-disk name, so the lookup reports
the record missing (and triggers a futile resync) even though the file
exists. -/
theorem C4_counterexample :
    (alookup (sync_files dC4 [""] [fSp]).1.entries "md5:/g/v.mp4").map
      (fun mm => mm.file) = some "a b.mp4" ∧
    (alookup (sync_files dC4 [""] [fSp]).1.entries "md5:/g/v.mp4").map
      (fun mm => mm.relative_path) = some "a%20b.mp4" ∧
    pathExists [fSp] "a b.mp4" = true ∧
    (getitem (sync_files dC4 [""] [fSp]).1 [""] [fSp]
      "md5:/g/v.mp4").1 = Except.ok none := by
  refine ⟨?_, ?_, ?_, ?_⟩ <;> decide

/-- Witness for the amended C4: renaming `v.mp4` to `renamed.mp4` (a
quote-invariant name) keeps its key, the record's path follows, and
`__getitem__` still resolves the key. -/
theorem C4_identity_stability_amended_witness :
    (alookup dC4.file_id_to_key (fileIdentity fR) = some "md5:/g/v.mp4" ∧
      alookup dC4.entries "md5:/g/v.mp4" =
        some ⟨"v.mp4", "v.mp4", true, some 7⟩ ∧
      (∀ p ∈ dC4.file_id_to_key, p.2 = "md5:/g/v.mp4" →
        p.1 = fileIdentity fR) ∧
      (∀ p ∈ dC4.key_to_file_id, p.2 = fileIdentity fR →
        p.1 = "md5:/g/v.mp4")) ∧
    (∃ m', alookup (sync_files dC4 [""] ([] ++ fR :: [])).1.entries
        "md5:/g/v.mp4" = some m' ∧
      m'.file = fR.path ∧ m'.relative_path = urlQuote fR.path ∧
      alookup (sync_files dC4 [""] ([] ++ fR :: [])).1.file_id_to_key
        (fileIdentity fR) = some "md5:/g/v.mp4" ∧
      getitem (sync_files dC4 [""] ([] ++ fR :: [])).1 [""]
        ([] ++ fR :: []) "md5:/g/v.mp4" =
        (Except.ok (some m'),
          (sync_files dC4 [""] ([] ++ fR :: [])).1)) :=
  ⟨⟨by decide, by decide, by decide, by decide⟩,
    C4_identity_stability_amended dC4 [""] [] [] fR "md5:/g/v.mp4"
      ⟨"v.mp4", "v.mp4", true, some 7⟩ (by decide) (by decide) (by decide)
      (by decide) (by decide) (by decide) (by decide) (by decide)
      (by decide) _ rfl⟩

/-! ## Claim C7 -/

/-- Counterexample to C7 as stated: scanning the fresh catalog over one
photo and one newly discovered video leaves the video's record with
`duration = some 7` — the probe result — not unset.  A bare
`sync_files` probes the duration of every newly discovered video
(`duration = get_video_duration(...) if is_video else None`). -/
theorem C7_counterexample :
    (alookup dSyncW.entries "md5:/g/v.mp4").map
      (fun mm => mm.duration) = some (some 7) ∧
    some 7 ≠ (none : Option Nat) := by
  constructor
  · decide
  · decide

/-- C7 as amended: `sync_files` probes video durations eagerly — a newly
discovered video's record is created with `duration` equal to the probe
result — while a re-observed video is re-probed only when its duration is
unset or its record changed, so a re-observed video whose kind, path and
URL are unchanged and whose duration is cached is left entirely
untouched by the scan. -/
theorem C7_sync_probes_amended (d : MediaDict) (folders : List String)
    (l1 l2 : List FsFile) (f : FsFile)
    (hig : ¬f.ignored = true) (hvid : f.kind = MediaKind.video)
    (d' : MediaDict)
    (hd' : d' = (sync_files d folders (l1 ++ f :: l2)).1) :
    ((alookup d.file_id_to_key (fileIdentity f) = none ∧
      (∀ p ∈ d.file_id_to_key, p.2 = mintKey f → p.1 = fileIdentity f) ∧
      (∀ p ∈ d.key_to_file_id, p.2 = fileIdentity f → p.1 = mintKey f) ∧
      (∀ g ∈ l1 ++ l2, ¬g.ignored = true → ¬g.kind = MediaKind.other →
        fileIdentity g ≠ fileIdentity f ∧ mintKey g ≠ mintKey f)) →
      alookup d'.entries (mintKey f) =
        some (⟨f.path, urlQuote f.path, true, some f.probed⟩ : MediaFile)) ∧
    (∀ k m, (alookup d.file_id_to_key (fileIdentity f) = some k ∧
      alookup d.entries k = some m ∧
      (∀ p ∈ d.file_id_to_key, p.2 = k → p.1 = fileIdentity f) ∧
      (∀ p ∈ d.key_to_file_id, p.2 = fileIdentity f → p.1 = k) ∧
      (∀ g ∈ l1 ++ l2, ¬g.ignored = true → ¬g.kind = MediaKind.other →
        fileIdentity g ≠ fileIdentity f ∧ mintKey g ≠ k) ∧
      m.is_video = true ∧ m.file = f.path ∧
      m.relative_path = urlQuote f.path ∧ m.duration ≠ none) →
      alookup d'.entries k = some m) := by
  have hkind : ¬f.kind = MediaKind.other := by
    rw [hvid]
    intro hc
    cases hc
  subst hd'
  unfold sync_files
  dsimp only
  set acc0 : SyncAcc := ⟨d.entries, d.file_id_to_key, d.key_to_file_id,
    folders.foldl (fun m c => match alookup m c with
      | some _ => m
      | none => m ++ [(c, [])]) [], [], []⟩ with hacc0
  set acc := (l1 ++ f :: l2).foldl syncFile acc0 with hacc
  have hfold : acc =
      l2.foldl syncFile (syncFile (l1.foldl syncFile acc0) f) := by
    rw [hacc, List.foldl_append, List.foldl_cons]
  constructor
  · rintro ⟨hlooknone, hInv1, hInv2, havoid⟩
    obtain ⟨A1, A2, A3, A4, A5⟩ := foldl_syncFile_frame (mintKey f)
      (fileIdentity f) l1 acc0 hInv1 hInv2
      (fun g hg => havoid g (List.mem_append_left _ hg))
    obtain ⟨T1, T2, T3, T4, T5⟩ := syncFile_target_new
      (l1.foldl syncFile acc0) f hig hkind (A4.trans hlooknone)
    obtain ⟨B1, B2, B3, B4, B5⟩ := foldl_syncFile_frame (mintKey f)
      (fileIdentity f) l2 (syncFile (l1.foldl syncFile acc0) f)
      (by
        rw [T2]
        intro p hp hpk
        rcases mem_aset hp with hp | hp
        · exact A1 p hp hpk
        · rw [hp])
      (by
        rw [T3]
        intro p hp hpI
        rcases mem_aset hp with hp | hp
        · exact A2 p hp hpI
        · rw [hp])
      (fun g hg => havoid g (List.mem_append_right _ hg))
    have hacck : alookup acc.entries (mintKey f) =
        some (⟨f.path, urlQuote f.path,
          decide (f.kind = MediaKind.video),
          if decide (f.kind = MediaKind.video) = true then some f.probed
          else none⟩ : MediaFile) := by
      rw [hfold]
      exact B3.trans T1
    have hfound : mintKey f ∈ acc.found_keys := by
      rw [hfold]
      exact B5 T4
    have hres := (alookup_filter_mem _ _ _ hfound).trans hacck
    rw [hres]
    rw [show (decide (f.kind = MediaKind.video)) = true from by
      rw [hvid]; rfl]
    rw [if_pos rfl]
  · rintro k m ⟨hlook, hent, hInv1, hInv2, havoid, hmv, hmf, hmr, hmd⟩
    obtain ⟨A1, A2, A3, A4, A5⟩ := foldl_syncFile_frame k
      (fileIdentity f) l1 acc0 hInv1 hInv2
      (fun g hg => havoid g (List.mem_append_left _ hg))
    obtain ⟨T1, T2, T3, T4⟩ := syncFile_target (l1.foldl syncFile acc0)
      f k m hig hkind (A4.trans hlook) (A3.trans hent)
    obtain ⟨B1, B2, B3, B4, B5⟩ := foldl_syncFile_frame k
      (fileIdentity f) l2 (syncFile (l1.foldl syncFile acc0) f)
      (by rw [T2]; exact A1) (by rw [T3]; exact A2)
      (fun g hg => havoid g (List.mem_append_right _ hg))
    have hmu : updateMedia m (decide (f.kind = MediaKind.video)) f.path
        (urlQuote f.path) f.probed = (m, false) :=
      updateMedia_unchanged m _ _ _ _
        (by rw [hmv, hvid]; rfl) hmf hmr (fun _ => hmd)
    have hacck : alookup acc.entries k = some m := by
      rw [hfold]
      refine B3.trans (T1.trans ?_)
      rw [hmu]
    have hfound : k ∈ acc.found_keys := by
      rw [hfold]
      exact B5 T4
    exact (alookup_filter_mem _ _ _ hfound).trans hacck

/-- Shared witness fixture: the video file of `fsW` on its own. -/
def vW : FsFile := ⟨"v.mp4", "/g/v.mp4", 1, 2, "", MediaKind.video, false, 7⟩

/-- Witness for the amended C7: scanning `vW` into the empty catalog
creates its record with the probed duration, and re-scanning the
resulting catalog leaves the record untouched. -/
theorem C7_sync_probes_amended_witness :
    (¬vW.ignored = true ∧ vW.kind = MediaKind.video ∧
      alookup d0W.file_id_to_key (fileIdentity vW) = none) ∧
    alookup (sync_files d0W [""] ([] ++ vW :: [])).1.entries (mintKey vW) =
      some (⟨vW.path, urlQuote vW.path, true, some vW.probed⟩ : MediaFile) :=
  ⟨⟨by decide, by decide, by decide⟩,
    (C7_sync_probes_amended d0W [""] [] [] vW (by decide) (by decide)
      _ rfl).1 ⟨by decide, by decide, by decide, by decide⟩⟩

/-! ## Claim C8 -/

/-- Frame for pruning: a scanned file that neither mints `k` nor carries
any identity that the base state maps to `k` can never put `k` into the
found set, and any identity binding for `k` it leaves behind was already
in the base map `D`. -/
theorem syncFile_never_key (D : List (String × String)) (acc : SyncAcc)
    (g : FsFile) (k : String)
    (hInv : ∀ p ∈ acc.file_id_to_key, p.2 = k → p ∈ D)
    (havoid : ¬g.ignored = true → ¬g.kind = MediaKind.other →
      mintKey g ≠ k ∧ ∀ p ∈ D, p.2 = k → fileIdentity g ≠ p.1)
    (hnf : k ∉ acc.found_keys) :
    (∀ p ∈ (syncFile acc g).file_id_to_key, p.2 = k → p ∈ D) ∧
    k ∉ (syncFile acc g).found_keys := by
  by_cases hig : g.ignored = true
  · unfold syncFile
    rw [if_pos hig]
    exact ⟨hInv, hnf⟩
  by_cases hkind : g.kind = MediaKind.other
  · unfold syncFile
    rw [if_neg hig, if_pos hkind]
    exact ⟨hInv, hnf⟩
  obtain ⟨hmint, hid⟩ := havoid hig hkind
  unfold syncFile
  rw [if_neg hig, if_neg hkind]
  dsimp only
  cases hlook : alookup acc.file_id_to_key (fileIdentity g) with
  | some key =>
    have hkey : key ≠ k := by
      intro hkk
      subst hkk
      exact hid _ (hInv _ (alookup_mem hlook) rfl) rfl rfl
    constructor
    · rw [addFound_file_id]
      split
      · split
        · exact hInv
        · exact hInv
      · exact hInv
    · apply addFound_not_found _ _ _ (fun hh => hkey hh.symm)
      split
      · split
        · exact hnf
        · exact hnf
      · exact hnf
  | none =>
    constructor
    · rw [addFound_file_id]
      intro p hp hpk
      rcases mem_aset hp with hp | hp
      · exact hInv p hp hpk
      · subst hp
        exact absurd hpk hmint
    · apply addFound_not_found _ _ _ (fun hh => hmint hh.symm)
      exact hnf

theorem foldl_syncFile_never_key (D : List (String × String)) (k : String) :
    ∀ (L : List FsFile) (acc : SyncAcc),
    (∀ p ∈ acc.file_id_to_key, p.2 = k → p ∈ D) →
    k ∉ acc.found_keys →
    (∀ g ∈ L, ¬g.ignored = true → ¬g.kind = MediaKind.other →
      mintKey g ≠ k ∧ ∀ p ∈ D, p.2 = k → fileIdentity g ≠ p.1) →
    k ∉ (L.foldl syncFile acc).found_keys := by
  intro L
  induction L with
  | nil => intro acc _ hnf _; exact hnf
  | cons g L ih =>
    intro acc hInv hnf hav
    obtain ⟨h1, h2⟩ := syncFile_never_key D acc g k hInv
      (hav g (List.mem_cons_self _ _)) hnf
    rw [List.foldl_cons]
    exact ih (syncFile acc g) h1 h2
      (fun x hx => hav x (List.mem_cons_of_mem _ hx))

/-- C8: looking up a previously-known key whose on-disk file no longer
exists returns the well-defined "missing" result (`Except.ok none` —
never the `KeyError` a plain dict lookup would raise for an unknown key)
and triggers a resync as a side effect; when no scanned file re-observes
that key (its identity is gone from disk), the resync prunes the key, so
consumers' queues self-heal on their next access. -/
theorem C8_missing_file_self_heals (d : MediaDict) (folders : List String)
    (fs : List FsFile) (k : String) (m : MediaFile)
    (hent : alookup d.entries k = some m)
    (hrel : m.relative_path ≠ "")
    (hmiss : pathExists fs m.relative_path = false)
    (havoid : ∀ g ∈ fs, ¬g.ignored = true → ¬g.kind = MediaKind.other →
      mintKey g ≠ k ∧
      ∀ p ∈ d.file_id_to_key, p.2 = k → fileIdentity g ≠ p.1) :
    getitem d folders fs k =
      (Except.ok none, (sync_files d folders fs).1) ∧
    alookup (sync_files d folders fs).1.entries k = none := by
  constructor
  · unfold getitem
    rw [hent]
    dsimp only
    rw [if_neg hrel, hmiss]
    rw [if_neg Bool.false_ne_true]
  · unfold sync_files
    dsimp only
    have hnf : k ∉ ((fs.foldl syncFile
        ⟨d.entries, d.file_id_to_key, d.key_to_file_id,
          folders.foldl (fun m c => match alookup m c with
            | some _ => m
            | none => m ++ [(c, [])]) [], [], []⟩ : SyncAcc)).found_keys :=
      foldl_syncFile_never_key d.file_id_to_key k fs _
        (fun p hp _ => hp) (List.not_mem_nil k) havoid
    exact alookup_filter_not_mem _ _ _ hnf

/-- Witness for C8: every file deleted from disk; looking up the stale
video key returns the well-defined missing result, resyncs and prunes the
key. -/
theorem C8_missing_file_self_heals_witness :
    (alookup dC4.entries "md5:/g/v.mp4" =
        some ⟨"v.mp4", "v.mp4", true, some 7⟩ ∧
      ("v.mp4" : String) ≠ "" ∧
      pathExists [] "v.mp4" = false) ∧
    (getitem dC4 [""] [] "md5:/g/v.mp4" =
      (Except.ok none, (sync_files dC4 [""] []).1) ∧
    alookup (sync_files dC4 [""] []).1.entries "md5:/g/v.mp4" = none) :=
  ⟨⟨by decide, by decide, by decide⟩,
    C8_missing_file_self_heals dC4 [""] [] "md5:/g/v.mp4"
      ⟨"v.mp4", "v.mp4", true, some 7⟩ (by decide) (by decide) (by decide)
      (by decide)⟩

end Pishow
